import Mathlib

/-!
Verification development for the `chessball` repository (`rust_chessball`).

The Rust sources are shallowly embedded below:
* `board.rs`    — players, piece types, coordinates, the board value, parsing/printing;
* `moves.rs`    — forward move generation (`possible_moves`) and retrograde
                  generation (`possible_previous_moves`);
* `winning_moves.rs`, `blocking_move.rs`, `win_avoidability.rs` — win analysis;
* `heuristics.rs` — feature extraction;
* `minimax.rs`  — `has_immediate_win` and `choose_best_move`.

Modelling conventions:
* Rust `usize`/`isize` become `Nat`/`Int`; the source's bound checks are kept
  verbatim, so the `toNat` casts below are only evaluated on checked values.
* Rust `f64` scores are modelled by `Rat` for finite values plus an explicit
  `Score` type with `negInf`/`posInf` for the `f64::INFINITY` sentinels used by
  the search (no claim under consideration depends on float rounding).
* Rust panics (`unreachable!`, index panics in the evaluator) are modelled by
  `Option`: a `none` result marks a panicking execution.
* Board cells are a row-major `List (Option Piece)` exactly as the Rust
  `Vec<Option<Piece>>`; `List.set` is Rust's in-place store (all stores in the
  embedded code are bounds-checked first by the source's own guards).
-/

namespace Chessball

inductive Player where
  | White
  | Black
  | Neutral
deriving DecidableEq, Repr

inductive PieceType where
  | Attacker
  | Defender
  | Ball
deriving DecidableEq, Repr

structure Piece where
  piece_type : PieceType
  player : Player
deriving DecidableEq, Repr

structure Coord where
  r : Int
  c : Int
deriving DecidableEq, Repr

/-- Modelled from the spec: the `DefenderTackle` payload type is referenced by
`board.rs` (`use crate::moves::DefenderTackle;`) but its definition is not in
the sources; per the spec it is "the (from, to) coordinate pair of the most
recent defender-tackle push". -/
structure DefenderTackle where
  tackle_from : Coord
  tackle_to : Coord
deriving DecidableEq, Repr

/-- `ChessBallBoard` from `board.rs`: rows × cols grid stored row-major. -/
structure ChessBallBoard where
  rows : Nat
  cols : Nat
  cells : List (Option Piece)
  prev_tackle : Option DefenderTackle
deriving DecidableEq, Repr

/-- The 8 adjacency directions, in the exact order of `DIRECTIONS` in `board.rs`. -/
def DIRECTIONS : List (Int × Int) :=
  [(-1, 0), (1, 0), (0, -1), (0, 1), (-1, -1), (-1, 1), (1, -1), (1, 1)]

/-- The `opponent` computation repeated in `blocking_move.rs`,
`win_avoidability.rs`, `minimax.rs` and `heuristics.rs`. -/
def opponent : Player → Player
  | Player.White => Player.Black
  | Player.Black => Player.White
  | Player.Neutral => Player.Neutral

namespace ChessBallBoard

/-- `idx` of `board.rs`, specialised to checked nonnegative coordinates. -/
def idx (b : ChessBallBoard) (r c : Nat) : Nat := r * b.cols + c

/-- Read the cell at row `r`, column `c` (`get_piece`; all embedded call sites
are guarded by the source's own bound checks, where Rust would panic). -/
def get_piece (b : ChessBallBoard) (r c : Nat) : Option Piece :=
  b.cells.getD (b.idx r c) none

/-- `place_piece` of `board.rs` at checked coordinates. -/
def place_piece (b : ChessBallBoard) (r c : Nat) (p : Piece) : ChessBallBoard :=
  { b with cells := b.cells.set (b.idx r c) (some p) }

/-- `remove_piece` of `board.rs` at checked coordinates. -/
def remove_piece (b : ChessBallBoard) (r c : Nat) : ChessBallBoard :=
  { b with cells := b.cells.set (b.idx r c) none }

/-- `is_on_board` of `board.rs`. -/
def is_on_board (b : ChessBallBoard) (at_ : Coord) : Prop :=
  0 ≤ at_.r ∧ at_.r < (b.rows : Int) ∧ 0 ≤ at_.c ∧ at_.c < (b.cols : Int)

instance (b : ChessBallBoard) (at_ : Coord) : Decidable (b.is_on_board at_) := by
  unfold is_on_board; infer_instance

/-- `iter_coords` of `board.rs`: all coordinates in row-major order. -/
def iter_coords (b : ChessBallBoard) : List Coord :=
  (List.range (b.cols * b.rows)).map fun i =>
    { r := ((i / b.cols : Nat) : Int), c := ((i % b.cols : Nat) : Int) }

/-- `find_ball` of `board.rs`: first coordinate (row-major) holding a Ball. -/
def find_ball (b : ChessBallBoard) : Option Coord :=
  b.iter_coords.find? fun coord =>
    match b.cells.getD (coord.r.toNat * b.cols + coord.c.toNat) none with
    | some p => p.piece_type = PieceType.Ball
    | none => false

/-- `is_forbidden_col`: the column form used by `moves.rs`
(`board.is_forbidden_col(br2.1)`); the `Coord` form in `board.rs` inspects only
the column, so both call styles go through this definition. -/
def is_forbidden_col (b : ChessBallBoard) (c : Int) : Prop :=
  c = 0 ∨ c = ((b.cols : Int) - 1)

instance (b : ChessBallBoard) (c : Int) : Decidable (b.is_forbidden_col c) := by
  unfold is_forbidden_col; infer_instance

end ChessBallBoard

/-- `MoveInfo` of `moves.rs` (flat struct with optional per-kind payloads). -/
structure MoveInfo where
  from_sq : Nat × Nat
  to_sq : Nat × Nat
  push_ball : Bool
  ball_to : Option (Nat × Nat)
  jump : Bool
  jumped_over : Option (Nat × Nat)
  tackle : Bool
  pushed_piece_from : Option (Nat × Nat)
  pushed_piece_to : Option (Nat × Nat)
deriving DecidableEq, Repr

/-- `MoveInfo::simple` of `moves.rs`. -/
def MoveInfo.simple (f t : Nat × Nat) : MoveInfo :=
  { from_sq := f, to_sq := t, push_ball := false, ball_to := none,
    jump := false, jumped_over := none, tackle := false,
    pushed_piece_from := none, pushed_piece_to := none }

open ChessBallBoard

/-- `gen_simple_move_for` of `moves.rs`. -/
def gen_simple_move_for (board : ChessBallBoard) (r c : Nat) (piece : Piece)
    (dr dc : Int) : List (MoveInfo × ChessBallBoard) :=
  let nr : Int := (r : Int) + dr
  let nc : Int := (c : Int) + dc
  if 0 ≤ nr ∧ 0 ≤ nc ∧ nr < (board.rows : Int) ∧ nc < (board.cols : Int) then
    if board.get_piece nr.toNat nc.toNat = none then
      let newb := (board.remove_piece r c).place_piece nr.toNat nc.toNat piece
      [(MoveInfo.simple (r, c) (nr.toNat, nc.toNat), newb)]
    else []
  else []

/-- `gen_ball_push_move_for` of `moves.rs`. -/
def gen_ball_push_move_for (board : ChessBallBoard) (r c : Nat) (piece : Piece)
    (dr dc : Int) : List (MoveInfo × ChessBallBoard) :=
  let nr : Int := (r : Int) + dr
  let nc : Int := (c : Int) + dc
  if 0 ≤ nr ∧ 0 ≤ nc ∧ nr < (board.rows : Int) ∧ nc < (board.cols : Int) then
    match board.get_piece nr.toNat nc.toNat with
    | some tgt =>
      if tgt.piece_type = PieceType.Ball then
        let br2r : Int := nr + dr
        let br2c : Int := nc + dc
        if 0 ≤ br2r ∧ 0 ≤ br2c ∧ br2r < (board.rows : Int) ∧ br2c < (board.cols : Int) then
          if board.get_piece br2r.toNat br2c.toNat = none ∧
              ¬ board.is_forbidden_col br2c then
            let newb := (((board.remove_piece r c).place_piece nr.toNat nc.toNat piece).place_piece
              br2r.toNat br2c.toNat { piece_type := PieceType.Ball, player := Player.Neutral })
            let info := { MoveInfo.simple (r, c) (nr.toNat, nc.toNat) with
              push_ball := true, ball_to := some (br2r.toNat, br2c.toNat) }
            [(info, newb)]
          else []
        else []
      else []
    | none => []
  else []

/-- `gen_attacker_jump_move_for` of `moves.rs`. -/
def gen_attacker_jump_move_for (board : ChessBallBoard) (r c : Nat) (piece : Piece)
    (dr dc : Int) : List (MoveInfo × ChessBallBoard) :=
  if piece.piece_type = PieceType.Attacker then
    let adj_r : Int := (r : Int) + dr
    let adj_c : Int := (c : Int) + dc
    let jump_r : Int := (r : Int) + 2 * dr
    let jump_c : Int := (c : Int) + 2 * dc
    if 0 ≤ adj_r ∧ 0 ≤ adj_c ∧ 0 ≤ jump_r ∧ 0 ≤ jump_c ∧
        adj_r < (board.rows : Int) ∧ adj_c < (board.cols : Int) ∧
        jump_r < (board.rows : Int) ∧ jump_c < (board.cols : Int) then
      match board.get_piece adj_r.toNat adj_c.toNat with
      | some adj =>
        if adj.piece_type ≠ PieceType.Ball ∧
            board.get_piece jump_r.toNat jump_c.toNat = none then
          let newb := (board.remove_piece r c).place_piece jump_r.toNat jump_c.toNat piece
          let info := { MoveInfo.simple (r, c) (jump_r.toNat, jump_c.toNat) with
            jump := true, jumped_over := some (adj_r.toNat, adj_c.toNat) }
          [(info, newb)]
        else []
      | none => []
    else []
  else []

/-- `gen_defender_tackle_move_for` of `moves.rs`. -/
def gen_defender_tackle_move_for (board : ChessBallBoard) (player : Player)
    (r c : Nat) (piece : Piece) (dr dc : Int) : List (MoveInfo × ChessBallBoard) :=
  if piece.piece_type = PieceType.Defender then
    let nr : Int := (r : Int) + dr
    let nc : Int := (c : Int) + dc
    if 0 ≤ nr ∧ 0 ≤ nc ∧ nr < (board.rows : Int) ∧ nc < (board.cols : Int) then
      let beyond_r : Int := nr + dr
      let beyond_c : Int := nc + dc
      if 0 ≤ beyond_r ∧ 0 ≤ beyond_c ∧
          beyond_r < (board.rows : Int) ∧ beyond_c < (board.cols : Int) then
        match board.get_piece nr.toNat nc.toNat with
        | some tgt =>
          if tgt.player ≠ player ∧ tgt.piece_type ≠ PieceType.Ball ∧
              board.get_piece beyond_r.toNat beyond_c.toNat = none then
            let newb := ((((board.remove_piece nr.toNat nc.toNat).place_piece
                beyond_r.toNat beyond_c.toNat tgt).remove_piece r c).place_piece
                nr.toNat nc.toNat piece)
            let info := { MoveInfo.simple (r, c) (nr.toNat, nc.toNat) with
              tackle := true, pushed_piece_from := some (nr.toNat, nc.toNat),
              pushed_piece_to := some (beyond_r.toNat, beyond_c.toNat) }
            [(info, newb)]
          else []
        | none => []
      else []
    else []
  else []

/-- The per-direction body of the `possible_moves` loop: the four generators in
source order (simple, push, jump, tackle). -/
def pieceDirMoves (board : ChessBallBoard) (player : Player) (r c : Nat)
    (piece : Piece) (d : Int × Int) : List (MoveInfo × ChessBallBoard) :=
  gen_simple_move_for board r c piece d.1 d.2 ++
  gen_ball_push_move_for board r c piece d.1 d.2 ++
  gen_attacker_jump_move_for board r c piece d.1 d.2 ++
  gen_defender_tackle_move_for board player r c piece d.1 d.2

/-- The per-cell body of the `possible_moves` loop. -/
def pieceMoves (board : ChessBallBoard) (player : Player) (r c : Nat) :
    List (MoveInfo × ChessBallBoard) :=
  match board.get_piece r c with
  | some piece =>
    if piece.player = player then
      DIRECTIONS.flatMap (pieceDirMoves board player r c piece)
    else []
  | none => []

/-- `possible_moves` of `moves.rs`. -/
def possible_moves (board : ChessBallBoard) (player : Player) :
    List (MoveInfo × ChessBallBoard) :=
  (List.range board.rows).flatMap fun r =>
    (List.range board.cols).flatMap fun c =>
      pieceMoves board player r c

/-- The simple-move reverse branch inside `possible_previous_moves`. -/
def prevSimpleFor (board : ChessBallBoard) (r c : Nat) (piece : Piece)
    (dr dc : Int) : List (MoveInfo × ChessBallBoard) :=
  let pr : Int := (r : Int) - dr
  let pc : Int := (c : Int) - dc
  if 0 ≤ pr ∧ 0 ≤ pc ∧ pr < (board.rows : Int) ∧ pc < (board.cols : Int) ∧
      board.get_piece pr.toNat pc.toNat = none then
    let prev_board := (board.remove_piece r c).place_piece pr.toNat pc.toNat piece
    [(MoveInfo.simple (pr.toNat, pc.toNat) (r, c), prev_board)]
  else []

/-- The ball-push reverse branch inside `possible_previous_moves`.  Kept
verbatim from the source: the guard `br == r && bc == c` requires the current
ball to sit on the moving piece's own cell. -/
def prevBallPushFor (board : ChessBallBoard) (r c : Nat) (piece : Piece)
    (dr dc : Int) : List (MoveInfo × ChessBallBoard) :=
  match board.find_ball with
  | some ball_pos =>
    if ball_pos.r = (r : Int) ∧ ball_pos.c = (c : Int) then
      let ball_src_r : Int := (r : Int) - dr
      let ball_src_c : Int := (c : Int) - dc
      let pr : Int := (r : Int) - dr
      let pc : Int := (c : Int) - dc
      if 0 ≤ ball_src_r ∧ 0 ≤ ball_src_c ∧ 0 ≤ pr ∧ 0 ≤ pc ∧
          ball_src_c < (board.cols : Int) ∧ ball_src_r < (board.rows : Int) ∧
          pr < (board.rows : Int) ∧ pc < (board.cols : Int) then
        if ¬ board.is_forbidden_col ball_src_c then
          match board.get_piece ball_pos.r.toNat ball_pos.c.toNat with
          | some dest =>
            if dest.piece_type = PieceType.Ball ∧
                board.get_piece pr.toNat pc.toNat = none then
              let prev_board := ((((board.remove_piece r c).place_piece pr.toNat pc.toNat
                piece).remove_piece ball_pos.r.toNat ball_pos.c.toNat).place_piece
                ball_src_r.toNat ball_src_c.toNat
                { piece_type := PieceType.Ball, player := Player.Neutral })
              let info := { MoveInfo.simple (pr.toNat, pc.toNat) (r, c) with
                push_ball := true, ball_to := some (r, c) }
              [(info, prev_board)]
            else []
          | none => []
        else []
      else []
    else []
  | none => []

/-- The attacker-jump reverse branch inside `possible_previous_moves`. -/
def prevJumpFor (board : ChessBallBoard) (r c : Nat) (piece : Piece)
    (dr dc : Int) : List (MoveInfo × ChessBallBoard) :=
  let adj_r : Int := (r : Int) - dr
  let adj_c : Int := (c : Int) - dc
  let prev_r : Int := (r : Int) - 2 * dr
  let prev_c : Int := (c : Int) - 2 * dc
  if 0 ≤ adj_r ∧ 0 ≤ adj_c ∧ 0 ≤ prev_r ∧ 0 ≤ prev_c ∧
      adj_r < (board.rows : Int) ∧ adj_c < (board.cols : Int) ∧
      prev_r < (board.rows : Int) ∧ prev_c < (board.cols : Int) then
    match board.get_piece adj_r.toNat adj_c.toNat with
    | some adj_piece =>
      if adj_piece.piece_type ≠ PieceType.Ball ∧
          board.get_piece prev_r.toNat prev_c.toNat = none then
        let prev_board := (board.remove_piece r c).place_piece prev_r.toNat prev_c.toNat piece
        let info := { MoveInfo.simple (prev_r.toNat, prev_c.toNat) (r, c) with
          jump := true, jumped_over := some (adj_r.toNat, adj_c.toNat) }
        [(info, prev_board)]
      else []
    | none => []
  else []

/-- The defender-tackle reverse branch inside `possible_previous_moves`. -/
def prevTackleFor (board : ChessBallBoard) (player : Player) (r c : Nat)
    (piece : Piece) (dr dc : Int) : List (MoveInfo × ChessBallBoard) :=
  let opp_r : Int := (r : Int) - dr
  let opp_c : Int := (c : Int) - dc
  let pushed_r : Int := (r : Int) + dr
  let pushed_c : Int := (c : Int) + dc
  if 0 ≤ opp_r ∧ 0 ≤ opp_c ∧ 0 ≤ pushed_r ∧ 0 ≤ pushed_c ∧
      opp_r < (board.rows : Int) ∧ opp_c < (board.cols : Int) ∧
      pushed_r < (board.rows : Int) ∧ pushed_c < (board.cols : Int) then
    match board.get_piece pushed_r.toNat pushed_c.toNat with
    | some op =>
      if op.player ≠ player ∧ op.piece_type ≠ PieceType.Ball ∧
          board.get_piece opp_r.toNat opp_c.toNat = none then
        let prev_board := ((((board.remove_piece r c).place_piece opp_r.toNat
            opp_c.toNat piece).remove_piece pushed_r.toNat pushed_c.toNat).place_piece
            r c op)
        let info := { MoveInfo.simple (opp_r.toNat, opp_c.toNat) (r, c) with
          tackle := true, pushed_piece_from := some (r, c),
          pushed_piece_to := some (pushed_r.toNat, pushed_c.toNat) }
        [(info, prev_board)]
      else []
    | none => []
  else []

/-- The per-cell body of the `possible_previous_moves` loop. -/
def piecePrevMoves (board : ChessBallBoard) (player : Player) (r c : Nat) :
    List (MoveInfo × ChessBallBoard) :=
  match board.get_piece r c with
  | some piece =>
    if piece.player = player then
      (DIRECTIONS.flatMap fun d =>
        prevSimpleFor board r c piece d.1 d.2 ++ prevBallPushFor board r c piece d.1 d.2) ++
      (if piece.piece_type = PieceType.Attacker then
        DIRECTIONS.flatMap fun d => prevJumpFor board r c piece d.1 d.2
      else []) ++
      (if piece.piece_type = PieceType.Defender then
        DIRECTIONS.flatMap fun d => prevTackleFor board player r c piece d.1 d.2
      else [])
    else []
  | none => []

/-- `possible_previous_moves` of `moves.rs`. -/
def possible_previous_moves (board : ChessBallBoard) (player : Player) :
    List (MoveInfo × ChessBallBoard) :=
  (List.range board.rows).flatMap fun r =>
    (List.range board.cols).flatMap fun c =>
      piecePrevMoves board player r c

/-- `winning_moves` of `winning_moves.rs`. -/
def winning_moves (position : ChessBallBoard) (player : Player) : List MoveInfo :=
  let winner_row : Nat :=
    match player with
    | Player.Black => 0
    | Player.White => position.rows - 1
    | Player.Neutral => position.rows - 1
  (possible_moves position player).filterMap fun x =>
    match x.2.find_ball with
    | some ball_coord => if ball_coord.r = (winner_row : Int) then some x.1 else none
    | none => none

/-- `find_blocking_move` of `blocking_move.rs`. -/
def find_blocking_move (position : ChessBallBoard) (player : Player) : Option MoveInfo :=
  ((possible_moves position player).find? fun x =>
    (winning_moves x.2 (opponent player)).isEmpty).map Prod.fst

/-- `is_win_avoidable_by_opponent` of `win_avoidability.rs`. -/
def is_win_avoidable_by_opponent (position : ChessBallBoard) (player : Player) : Bool :=
  let previous_positions := possible_previous_moves position (opponent player)
  if previous_positions.isEmpty then false
  else previous_positions.all fun x => (find_blocking_move x.2 (opponent player)).isSome

/-- Coordinate-based cell read (`get_piece(&Coord)` of `board.rs`); every
embedded call site is guarded by `is_on_board`, where Rust would panic. -/
def ChessBallBoard.get_piece_at (b : ChessBallBoard) (at_ : Coord) : Option Piece :=
  b.cells.getD (at_.r.toNat * b.cols + at_.c.toNat) none

/-- `count_adjacent_pushers` of `heuristics.rs`. -/
def count_adjacent_pushers (board : ChessBallBoard) (player : Player) : Nat :=
  match board.find_ball with
  | some ball_coord =>
    DIRECTIONS.foldl (fun count delta =>
      let pusher_coord : Coord := { r := ball_coord.r - delta.1, c := ball_coord.c - delta.2 }
      let ball_destination : Coord := { r := ball_coord.r + delta.1, c := ball_coord.c + delta.2 }
      if ¬ board.is_on_board pusher_coord ∨ ¬ board.is_on_board ball_destination ∨
          board.is_forbidden_col ball_destination.c then count
      else
        match board.get_piece_at pusher_coord with
        | some pusher =>
          if pusher.player = player ∧ (board.get_piece_at ball_destination) = none then
            count + 1
          else count
        | none => count) 0
  | none => 0

/-- `count_control_around_ball` of `heuristics.rs`; `none` models the two
`unreachable!("Two balls on board")` panic arms. -/
def count_control_around_ball (board : ChessBallBoard) (player : Player) :
    Option (Nat × Nat) :=
  match board.find_ball with
  | some ball_coord =>
    DIRECTIONS.foldl (fun acc delta =>
      acc.bind fun fe =>
        let piece_coord : Coord := { r := ball_coord.r + delta.1, c := ball_coord.c + delta.2 }
        if ¬ board.is_on_board piece_coord then some fe
        else
          match board.get_piece_at piece_coord with
          | none => some fe
          | some { piece_type := PieceType.Ball, player := _ } => none
          | some { piece_type := _, player := Player.Neutral } => none
          | some pc =>
            if pc.player = player then some (fe.1 + 1, fe.2) else some (fe.1, fe.2 + 1))
      (some (0, 0))
  | none => some (0, 0)

/-- `mobility` of `heuristics.rs`. -/
def mobility (board : ChessBallBoard) (player : Player) : Nat :=
  (possible_moves board player).length

/-- `vulnerable_pieces_count` of `heuristics.rs`. -/
def vulnerable_pieces_count (board : ChessBallBoard) (player : Player) : Nat :=
  let opp := opponent player
  board.iter_coords.foldl (fun vuln coord =>
    match board.get_piece_at coord with
    | some p =>
      if p.player ≠ player then vuln
      else
        DIRECTIONS.foldl (fun v delta =>
          let opp_coord : Coord := { r := coord.r + delta.1, c := coord.c + delta.2 }
          let destination : Coord := { r := coord.r - delta.1, c := coord.c - delta.2 }
          if ¬ board.is_on_board opp_coord ∨ ¬ board.is_on_board destination then v
          else if (board.get_piece_at destination).isSome then v
          else
            match board.get_piece_at opp_coord with
            | some { piece_type := PieceType.Defender, player := q } =>
              if q = opp then v + 1 else v
            | _ => v) vuln
    | none => vuln) 0

/-- `approx_push_distance` of `heuristics.rs` (`f64` modelled by `Rat`). -/
def approx_push_distance (board : ChessBallBoard) (player : Player) : Rat :=
  match board.find_ball with
  | some ball_coord =>
    let dist : Int :=
      match player with
      | Player.White => ((board.rows - 1 : Nat) : Int) - ball_coord.r
      | Player.Black => ball_coord.r
      | Player.Neutral => ((board.rows - 1 : Nat) : Int) - ball_coord.r
    let max_dist : Rat := ((board.rows - 1 : Nat) : Rat)
    if max_dist = 0 then 1
    else
      let forward_delta : Coord :=
        if player = Player.White then { r := 1, c := 0 } else { r := -1, c := 0 }
      let behind : Coord :=
        { r := ball_coord.r - forward_delta.r, c := ball_coord.c - forward_delta.c }
      let bonus : Rat :=
        if board.is_on_board behind then
          match board.get_piece_at behind with
          | some p =>
            if p.player = player then
              let dest : Coord :=
                { r := ball_coord.r + forward_delta.r, c := ball_coord.c + forward_delta.c }
              if board.is_on_board dest ∧ (board.get_piece_at dest) = none ∧
                  ¬ board.is_forbidden_col dest.c then (1 : Rat) / 2
              else 0
            else 0
          | none => 0
        else 0
      let eff : Rat := max ((dist : Rat) - bonus) 0
      let norm : Rat := 1 - eff / max_dist
      if norm < 0 then 0 else norm
  | none => 0

/-- `ball_row_for_player` of `heuristics.rs`. -/
def ball_row_for_player (board : ChessBallBoard) (player : Player) : Rat :=
  match board.find_ball with
  | some ball_coord =>
    let val : Rat :=
      match player with
      | Player.White => (ball_coord.r : Rat)
      | Player.Black => (((board.rows : Int) - 1 - ball_coord.r : Int) : Rat)
      | Player.Neutral => (ball_coord.r : Rat)
    val / ((board.rows - 1 : Nat) : Rat)
  | none => -1

/-- `count_opponent_pieces_between_ball_and_goal` of `heuristics.rs`
(note: the source counts every cell with `coord.r > start`, with no upper
bound below `end`). -/
def count_opponent_pieces_between_ball_and_goal (board : ChessBallBoard)
    (player : Player) : Nat :=
  match board.find_ball with
  | some ball_coord =>
    if player = Player.Neutral then 0
    else
      let goal_row : Int := if player = Player.White then (board.rows : Int) - 1 else 0
      let start := min ball_coord.r goal_row
      let stop := max ball_coord.r goal_row
      if stop - start ≤ 1 then 0
      else
        board.iter_coords.foldl (fun count coord =>
          if coord.r > start then
            match board.get_piece_at coord with
            | some p =>
              if p.player ≠ player ∧ p.piece_type ≠ PieceType.Ball then count + 1 else count
            | none => count
          else count) 0
  | none => 0

/-- `feature_vector` of `heuristics.rs`, as an association list in the source's
insertion order; `none` models the panic propagated from
`count_control_around_ball`. -/
def feature_vector (board : ChessBallBoard) (player : Player) :
    Option (List (String × Rat)) :=
  let opp := opponent player
  let player_wins := ¬ (winning_moves board player).isEmpty
  let opp_wins := ¬ (winning_moves board opp).isEmpty
  let rowForb : Rat × Rat :=
    match board.find_ball with
    | some ball_coord =>
      let dist_rows : Int :=
        if player = Player.White then ((board.rows - 1 : Nat) : Int) - ball_coord.r
        else ball_coord.r
      let ball_row_feature : Rat := 1 - ((dist_rows : Rat) / ((board.rows - 1 : Nat) : Rat))
      let ball_in_forbidden : Rat := if board.is_forbidden_col ball_coord.c then 1 else 0
      (ball_row_feature, ball_in_forbidden)
    | none => (0, 0)
  let adj_pushers : Rat := (count_adjacent_pushers board player : Rat) / 8
  let opp_adj_pushers : Rat := (count_adjacent_pushers board opp : Rat) / 8
  (count_control_around_ball board player).map fun cf =>
    let control : Rat := ((cf.1 : Rat) - (cf.2 : Rat)) / 8
    let mob : Rat := ((mobility board player : Rat) - (mobility board opp : Rat)) / 60
    let vulnerable : Rat := (vulnerable_pieces_count board player : Rat) / 5
    let push_dist := approx_push_distance board player
    let unavoidable : Rat :=
      if player_wins then
        if is_win_avoidable_by_opponent board player then 0 else 1
      else 0
    let ball_row_value := ball_row_for_player board player
    let opp_between : Rat :=
      (count_opponent_pieces_between_ball_and_goal board player : Rat) / 5
    [("win_now", if player_wins then 1 else 0),
     ("lose_now", if opp_wins then 1 else 0),
     ("ball_row", rowForb.1),
     ("ball_in_forbidden_col", rowForb.2),
     ("adj_pushers", adj_pushers),
     ("opp_adj_pushers", opp_adj_pushers),
     ("control", control),
     ("mobility", mob),
     ("push_distance", push_dist),
     ("unavoidable_win", unavoidable),
     ("vulnerable", vulnerable),
     ("ball_row_value", ball_row_value),
     ("opp_between_ball_and_goal", opp_between)]

/-- Scores: `f64` finite values plus the `f64::INFINITY` / `f64::NEG_INFINITY`
sentinels used by `minimax.rs`. -/
inductive Score where
  | negInf
  | fin (q : Rat)
  | posInf
deriving DecidableEq, Repr

/-- The `f64` strict order restricted to the values `minimax.rs` produces. -/
def Score.lt : Score → Score → Bool
  | Score.negInf, Score.negInf => false
  | Score.negInf, _ => true
  | Score.fin _, Score.negInf => false
  | Score.fin a, Score.fin b => a < b
  | Score.fin _, Score.posInf => true
  | Score.posInf, _ => false

/-- The leaf evaluation of `minimax.rs`: `feature_vector(...).values().sum()`. -/
def featSum (board : ChessBallBoard) (root_player : Player) : Option Rat :=
  (feature_vector board root_player).map fun feats =>
    feats.foldl (fun s x => s + x.2) 0

/-- `has_immediate_win` of `minimax.rs`. -/
def has_immediate_win (board : ChessBallBoard) (player : Player) :
    Option (MoveInfo × ChessBallBoard) :=
  if (winning_moves board player).isEmpty then none
  else
    (possible_moves board player).find? fun x =>
      match x.2.find_ball with
      | some bc =>
        let winner_row : Nat := if player = Player.Black then 0 else x.2.rows - 1
        decide (bc.r = (winner_row : Int))
      | none => false

/-- The inner `minimax` of `choose_best_move` in `minimax.rs`; the result is
`(score, move, board)`, and `none` models a panic at a leaf evaluation. -/
def minimax (node_board : ChessBallBoard) (to_move : Player) (ply : Nat)
    (maximizing : Bool) (root_player : Player) :
    Option (Score × Option MoveInfo × Option ChessBallBoard) :=
  match has_immediate_win node_board to_move with
  | some (mv, board_after) =>
    some ((if maximizing then Score.posInf else Score.negInf), some mv, some board_after)
  | none =>
    let other := opponent to_move
    if (has_immediate_win node_board other).isSome then
      some ((if maximizing then Score.negInf else Score.posInf), none, none)
    else
      match ply with
      | 0 => (featSum node_board root_player).map fun s => (Score.fin s, none, none)
      | ply' + 1 =>
        let moves := possible_moves node_board to_move
        if moves.isEmpty then
          (featSum node_board root_player).map fun s => (Score.fin s, none, none)
        else if maximizing then
          moves.foldlM (fun acc x =>
            (minimax x.2 other ply' false root_player).bind fun child =>
              if Score.lt acc.1 child.1 then some (child.1, some x.1, some x.2) else some acc)
            (Score.negInf, none, none)
        else
          moves.foldlM (fun acc x =>
            (minimax x.2 other ply' true root_player).bind fun child =>
              if Score.lt child.1 acc.1 then some (child.1, some x.1, some x.2) else some acc)
            (Score.posInf, none, none)

/-- `choose_best_move` of `minimax.rs`; the result tuple is
`(move, board, score)` as in the source, and `none` models a panic. -/
def choose_best_move (board : ChessBallBoard) (player : Player) (depth : Nat) :
    Option (Option MoveInfo × Option ChessBallBoard × Score) :=
  match has_immediate_win board player with
  | some (mv, b2) => some (some mv, some b2, Score.posInf)
  | none =>
    if (has_immediate_win board (opponent player)).isSome then
      some (none, none, Score.negInf)
    else
      (minimax board player depth true player).map fun x => (x.2.1, x.2.2, x.1)

/-! ### Generic list helper lemmas -/

theorem getD_set_ne {α : Type} (l : List α) {i j : Nat} (v d : α) (h : i ≠ j) :
    (l.set i v).getD j d = l.getD j d := by
  simp [List.getD_eq_getElem?_getD, List.getElem?_set_ne h]

theorem getD_set_self {α : Type} (l : List α) {i : Nat} (v d : α) (h : i < l.length) :
    (l.set i v).getD i d = v := by
  simp [List.getD_eq_getElem?_getD, List.getElem?_set_self h]

theorem lt_length_of_getD_ne {α : Type} (l : List α) {i : Nat} {d : α}
    (h : l.getD i d ≠ d) : i < l.length := by
  by_contra hc
  push_neg at hc
  exact h (List.getD_eq_default _ _ hc)

/-! ### C2 and C4: win analysis -/

/-- C2 — Blocking correctness: if `find_blocking_move b p` returns `some mv`
then `mv` is one of `possible_moves b p` and its paired resulting board leaves
the opponent no winning move; if it returns `none`, every move in
`possible_moves b p` leaves the opponent at least one winning reply. -/
theorem find_blocking_move_correct (b : ChessBallBoard) (p : Player) :
    (∀ mv, find_blocking_move b p = some mv →
      ∃ r, (mv, r) ∈ possible_moves b p ∧ winning_moves r (opponent p) = []) ∧
    (find_blocking_move b p = none →
      ∀ x ∈ possible_moves b p, winning_moves x.2 (opponent p) ≠ []) := by
  constructor
  · intro mv h
    unfold find_blocking_move at h
    cases hf : (possible_moves b p).find? (fun x => (winning_moves x.2 (opponent p)).isEmpty) with
    | none => rw [hf] at h; simp at h
    | some x =>
      rw [hf] at h
      simp only [Option.map_some'] at h
      have hmem := List.mem_of_find?_eq_some hf
      have hpred := List.find?_some hf
      have hx1 := Option.some.inj h
      subst hx1
      refine ⟨x.2, ?_, ?_⟩
      · simpa using hmem
      · simpa [List.isEmpty_iff] using hpred
  · intro h x hx
    unfold find_blocking_move at h
    cases hf : (possible_moves b p).find? (fun x => (winning_moves x.2 (opponent p)).isEmpty) with
    | none =>
      have := List.find?_eq_none.mp hf x hx
      simpa [List.isEmpty_iff] using this
    | some y => rw [hf] at h; simp at h

/-- C4 — Win-avoidability semantics: `is_win_avoidable_by_opponent` returns
`false` when the retrograde predecessor list is empty, returns `false` when
some predecessor offers the opponent no blocking move, and returns `true`
exactly when the predecessor list is non-empty and every predecessor board
admits a blocking move for the opponent. -/
theorem is_win_avoidable_by_opponent_correct (position : ChessBallBoard) (player : Player) :
    (possible_previous_moves position (opponent player) = [] →
      is_win_avoidable_by_opponent position player = false) ∧
    (∀ x ∈ possible_previous_moves position (opponent player),
      find_blocking_move x.2 (opponent player) = none →
      is_win_avoidable_by_opponent position player = false) ∧
    (is_win_avoidable_by_opponent position player = true ↔
      (possible_previous_moves position (opponent player) ≠ [] ∧
       ∀ x ∈ possible_previous_moves position (opponent player),
         (find_blocking_move x.2 (opponent player)).isSome)) := by
  refine ⟨?_, ?_, ?_⟩
  · intro h
    unfold is_win_avoidable_by_opponent
    simp [h]
  · intro x hx hnone
    unfold is_win_avoidable_by_opponent
    by_cases he : (possible_previous_moves position (opponent player)).isEmpty
    · simp [he]
    · simp only [he, Bool.false_eq_true, if_false]
      rw [List.all_eq_false]
      exact ⟨x, hx, by simp [hnone]⟩
  · unfold is_win_avoidable_by_opponent
    by_cases he : (possible_previous_moves position (opponent player)).isEmpty
    · simp_all [List.isEmpty_iff]
    · simp only [he, Bool.false_eq_true, if_false]
      rw [List.all_eq_true]
      simp only [List.isEmpty_iff] at he
      exact ⟨fun h => ⟨he, fun x hx => h x hx⟩, fun h x hx => h.2 x hx⟩

/-! ### Structure of `possible_moves` membership -/

theorem gen_simple_elim {board : ChessBallBoard} {rr cc : Nat} {piece : Piece}
    {dr dc : Int} {m : MoveInfo} {r : ChessBallBoard}
    (h : (m, r) ∈ gen_simple_move_for board rr cc piece dr dc) :
    0 ≤ (rr : Int) + dr ∧ 0 ≤ (cc : Int) + dc ∧ (rr : Int) + dr < (board.rows : Int) ∧
    (cc : Int) + dc < (board.cols : Int) ∧
    board.get_piece ((rr : Int) + dr).toNat ((cc : Int) + dc).toNat = none ∧
    m = MoveInfo.simple (rr, cc) (((rr : Int) + dr).toNat, ((cc : Int) + dc).toNat) ∧
    r = (board.remove_piece rr cc).place_piece ((rr : Int) + dr).toNat
          ((cc : Int) + dc).toNat piece := by
  simp only [gen_simple_move_for] at h
  split at h
  · split at h
    · simp only [List.mem_singleton, Prod.mk.injEq] at h
      refine ⟨by tauto, by tauto, by tauto, by tauto, by assumption, h.1, h.2⟩
    · simp at h
  · simp at h

theorem gen_ball_push_elim {board : ChessBallBoard} {rr cc : Nat} {piece : Piece}
    {dr dc : Int} {m : MoveInfo} {r : ChessBallBoard}
    (h : (m, r) ∈ gen_ball_push_move_for board rr cc piece dr dc) :
    ∃ tgt, 0 ≤ (rr : Int) + dr ∧ 0 ≤ (cc : Int) + dc ∧
    (rr : Int) + dr < (board.rows : Int) ∧ (cc : Int) + dc < (board.cols : Int) ∧
    board.get_piece ((rr : Int) + dr).toNat ((cc : Int) + dc).toNat = some tgt ∧
    tgt.piece_type = PieceType.Ball ∧
    0 ≤ (rr : Int) + 2 * dr ∧ 0 ≤ (cc : Int) + 2 * dc ∧
    (rr : Int) + 2 * dr < (board.rows : Int) ∧ (cc : Int) + 2 * dc < (board.cols : Int) ∧
    board.get_piece ((rr : Int) + 2 * dr).toNat ((cc : Int) + 2 * dc).toNat = none ∧
    ¬ board.is_forbidden_col ((cc : Int) + dc + dc) ∧
    m = { MoveInfo.simple (rr, cc) (((rr : Int) + dr).toNat, ((cc : Int) + dc).toNat) with
            push_ball := true,
            ball_to := some (((rr : Int) + 2 * dr).toNat, ((cc : Int) + 2 * dc).toNat) } ∧
    r = (((board.remove_piece rr cc).place_piece ((rr : Int) + dr).toNat
            ((cc : Int) + dc).toNat piece).place_piece ((rr : Int) + 2 * dr).toNat
            ((cc : Int) + 2 * dc).toNat
            { piece_type := PieceType.Ball, player := Player.Neutral }) := by
  simp only [gen_ball_push_move_for] at h
  split at h
  · rename_i hgrd
    split at h
    · rename_i tgt htgt
      split at h
      · rename_i hball
        split at h
        · rename_i hgrd2
          split at h
          · rename_i hfree
            simp only [List.mem_singleton, Prod.mk.injEq] at h
            have e1 : (rr : Int) + dr + dr = (rr : Int) + 2 * dr := by ring
            have e2 : (cc : Int) + dc + dc = (cc : Int) + 2 * dc := by ring
            rw [e1, e2] at hgrd2 hfree h
            refine ⟨tgt, by tauto, by tauto, by tauto, by tauto, htgt, hball,
              by tauto, by tauto, by tauto, by tauto, hfree.1, ?_, h.1, h.2⟩
            have := hfree.2
            rwa [e2]
          · simp at h
        · simp at h
      · simp at h
    · simp at h
  · simp at h

theorem gen_attacker_jump_elim {board : ChessBallBoard} {rr cc : Nat} {piece : Piece}
    {dr dc : Int} {m : MoveInfo} {r : ChessBallBoard}
    (h : (m, r) ∈ gen_attacker_jump_move_for board rr cc piece dr dc) :
    ∃ adj, piece.piece_type = PieceType.Attacker ∧
    0 ≤ (rr : Int) + dr ∧ 0 ≤ (cc : Int) + dc ∧
    0 ≤ (rr : Int) + 2 * dr ∧ 0 ≤ (cc : Int) + 2 * dc ∧
    (rr : Int) + dr < (board.rows : Int) ∧ (cc : Int) + dc < (board.cols : Int) ∧
    (rr : Int) + 2 * dr < (board.rows : Int) ∧ (cc : Int) + 2 * dc < (board.cols : Int) ∧
    board.get_piece ((rr : Int) + dr).toNat ((cc : Int) + dc).toNat = some adj ∧
    adj.piece_type ≠ PieceType.Ball ∧
    board.get_piece ((rr : Int) + 2 * dr).toNat ((cc : Int) + 2 * dc).toNat = none ∧
    m = { MoveInfo.simple (rr, cc) (((rr : Int) + 2 * dr).toNat, ((cc : Int) + 2 * dc).toNat) with
            jump := true,
            jumped_over := some (((rr : Int) + dr).toNat, ((cc : Int) + dc).toNat) } ∧
    r = (board.remove_piece rr cc).place_piece ((rr : Int) + 2 * dr).toNat
          ((cc : Int) + 2 * dc).toNat piece := by
  simp only [gen_attacker_jump_move_for] at h
  split at h
  · rename_i hatt
    split at h
    · rename_i hgrd
      split at h
      · rename_i adj hadj
        split at h
        · rename_i hcond
          simp only [List.mem_singleton, Prod.mk.injEq] at h
          exact ⟨adj, hatt, by tauto, by tauto, by tauto, by tauto, by tauto, by tauto,
            by tauto, by tauto, hadj, hcond.1, hcond.2, h.1, h.2⟩
        · simp at h
      · simp at h
    · simp at h
  · simp at h

theorem gen_defender_tackle_elim {board : ChessBallBoard} {player : Player}
    {rr cc : Nat} {piece : Piece} {dr dc : Int} {m : MoveInfo} {r : ChessBallBoard}
    (h : (m, r) ∈ gen_defender_tackle_move_for board player rr cc piece dr dc) :
    ∃ tgt, piece.piece_type = PieceType.Defender ∧
    0 ≤ (rr : Int) + dr ∧ 0 ≤ (cc : Int) + dc ∧
    (rr : Int) + dr < (board.rows : Int) ∧ (cc : Int) + dc < (board.cols : Int) ∧
    0 ≤ (rr : Int) + 2 * dr ∧ 0 ≤ (cc : Int) + 2 * dc ∧
    (rr : Int) + 2 * dr < (board.rows : Int) ∧ (cc : Int) + 2 * dc < (board.cols : Int) ∧
    board.get_piece ((rr : Int) + dr).toNat ((cc : Int) + dc).toNat = some tgt ∧
    tgt.player ≠ player ∧ tgt.piece_type ≠ PieceType.Ball ∧
    board.get_piece ((rr : Int) + 2 * dr).toNat ((cc : Int) + 2 * dc).toNat = none ∧
    m = { MoveInfo.simple (rr, cc) (((rr : Int) + dr).toNat, ((cc : Int) + dc).toNat) with
            tackle := true,
            pushed_piece_from := some (((rr : Int) + dr).toNat, ((cc : Int) + dc).toNat),
            pushed_piece_to := some (((rr : Int) + 2 * dr).toNat, ((cc : Int) + 2 * dc).toNat) } ∧
    r = ((((board.remove_piece ((rr : Int) + dr).toNat ((cc : Int) + dc).toNat).place_piece
            ((rr : Int) + 2 * dr).toNat ((cc : Int) + 2 * dc).toNat tgt).remove_piece rr
            cc).place_piece ((rr : Int) + dr).toNat ((cc : Int) + dc).toNat piece) := by
  simp only [gen_defender_tackle_move_for] at h
  split at h
  · rename_i hdef
    split at h
    · rename_i hgrd
      split at h
      · rename_i hgrd2
        split at h
        · rename_i tgt htgt
          split at h
          · rename_i hcond
            simp only [List.mem_singleton, Prod.mk.injEq] at h
            have e1 : (rr : Int) + dr + dr = (rr : Int) + 2 * dr := by ring
            have e2 : (cc : Int) + dc + dc = (cc : Int) + 2 * dc := by ring
            rw [e1, e2] at hgrd2 hcond h
            exact ⟨tgt, hdef, by tauto, by tauto, by tauto, by tauto, by tauto, by tauto,
              by tauto, by tauto, htgt, hcond.1, hcond.2.1, hcond.2.2, h.1, h.2⟩
          · simp at h
        · simp at h
      · simp at h
    · simp at h
  · simp at h

/-- Decomposition of `possible_moves` membership into the four generators. -/
theorem mem_possible_moves_elim {board : ChessBallBoard} {p : Player}
    {m : MoveInfo} {r : ChessBallBoard} (hx : (m, r) ∈ possible_moves board p) :
    ∃ rr cc piece d, rr < board.rows ∧ cc < board.cols ∧
      board.get_piece rr cc = some piece ∧ piece.player = p ∧ d ∈ DIRECTIONS ∧
      ((m, r) ∈ gen_simple_move_for board rr cc piece d.1 d.2 ∨
       (m, r) ∈ gen_ball_push_move_for board rr cc piece d.1 d.2 ∨
       (m, r) ∈ gen_attacker_jump_move_for board rr cc piece d.1 d.2 ∨
       (m, r) ∈ gen_defender_tackle_move_for board p rr cc piece d.1 d.2) := by
  have h := hx
  unfold possible_moves at h
  rw [List.mem_flatMap] at h
  obtain ⟨rr, hrr, h⟩ := h
  rw [List.mem_flatMap] at h
  obtain ⟨cc, hcc, h⟩ := h
  rw [List.mem_range] at hrr
  rw [List.mem_range] at hcc
  simp only [pieceMoves] at h
  split at h
  · rename_i piece hp
    split at h
    · rw [List.mem_flatMap] at h
      obtain ⟨d, hd, h⟩ := h
      simp only [pieceDirMoves] at h
      rw [List.mem_append, List.mem_append, List.mem_append] at h
      exact ⟨rr, cc, piece, d, hrr, hcc, hp, by assumption, hd, by tauto⟩
    · simp at h
  · simp at h

/-- Every move in `possible_moves board p` starts from a cell holding a piece
of `p` in the source board. -/
theorem possible_moves_from_piece {board : ChessBallBoard} {p : Player}
    {m : MoveInfo} {r : ChessBallBoard} (h : (m, r) ∈ possible_moves board p) :
    ∃ piece, board.get_piece m.from_sq.1 m.from_sq.2 = some piece ∧ piece.player = p := by
  obtain ⟨rr, cc, piece, d, _, _, hp, hpl, _, hc⟩ := mem_possible_moves_elim h
  have hfrom : m.from_sq = (rr, cc) := by
    rcases hc with hc | hc | hc | hc
    · obtain ⟨_, _, _, _, _, hm, _⟩ := gen_simple_elim hc
      rw [hm]; rfl
    · obtain ⟨tgt, _, _, _, _, _, _, _, _, _, _, _, _, hm, _⟩ := gen_ball_push_elim hc
      rw [hm]; rfl
    · obtain ⟨adj, _, _, _, _, _, _, _, _, _, _, _, _, hm, _⟩ := gen_attacker_jump_elim hc
      rw [hm]; rfl
    · obtain ⟨tgt, _, _, _, _, _, _, _, _, _, _, _, _, _, hm, _⟩ := gen_defender_tackle_elim hc
      rw [hm]; rfl
  rw [hfrom]
  exact ⟨piece, hp, hpl⟩

@[simp] theorem rows_place_piece (b : ChessBallBoard) (r c : Nat) (p : Piece) :
    (b.place_piece r c p).rows = b.rows := rfl

@[simp] theorem cols_place_piece (b : ChessBallBoard) (r c : Nat) (p : Piece) :
    (b.place_piece r c p).cols = b.cols := rfl

@[simp] theorem rows_remove_piece (b : ChessBallBoard) (r c : Nat) :
    (b.remove_piece r c).rows = b.rows := rfl

@[simp] theorem cols_remove_piece (b : ChessBallBoard) (r c : Nat) :
    (b.remove_piece r c).cols = b.cols := rfl

theorem cells_place_piece (b : ChessBallBoard) (r c : Nat) (p : Piece) :
    (b.place_piece r c p).cells = b.cells.set (b.idx r c) (some p) := rfl

theorem cells_remove_piece (b : ChessBallBoard) (r c : Nat) :
    (b.remove_piece r c).cells = b.cells.set (b.idx r c) none := rfl

/-- Row-major indexing is injective for checked column coordinates. -/
theorem idx_inj {cols r1 c1 r2 c2 : Nat} (h1 : c1 < cols) (h2 : c2 < cols)
    (h : r1 * cols + c1 = r2 * cols + c2) : r1 = r2 ∧ c1 = c2 := by
  have hcpos : 0 < cols := by omega
  have hc : c1 = c2 := by
    have e1 : (r1 * cols + c1) % cols = c1 := by
      rw [Nat.mul_comm, Nat.mul_add_mod]
      exact Nat.mod_eq_of_lt h1
    have e2 : (r2 * cols + c2) % cols = c2 := by
      rw [Nat.mul_comm, Nat.mul_add_mod]
      exact Nat.mod_eq_of_lt h2
    rw [← e1, ← e2, h]
  refine ⟨?_, hc⟩
  subst hc
  have hm : r1 * cols = r2 * cols := by omega
  exact Nat.eq_of_mul_eq_mul_right hcpos hm

/-- No direction in `DIRECTIONS` is the zero vector. -/
theorem directions_ne_zero {d : Int × Int} (hd : d ∈ DIRECTIONS) :
    ¬ (d.1 = 0 ∧ d.2 = 0) := by
  fin_cases hd <;> simp

/-- Every board produced by `possible_moves` keeps the source dimensions. -/
theorem dims_of_mem_possible_moves {board : ChessBallBoard} {p : Player}
    {m : MoveInfo} {r : ChessBallBoard} (h : (m, r) ∈ possible_moves board p) :
    r.rows = board.rows ∧ r.cols = board.cols := by
  obtain ⟨rr, cc, piece, d, _, _, _, _, _, hc⟩ := mem_possible_moves_elim h
  rcases hc with hc | hc | hc | hc
  · obtain ⟨_, _, _, _, _, _, hr⟩ := gen_simple_elim hc
    rw [hr]; exact ⟨rfl, rfl⟩
  · obtain ⟨tgt, _, _, _, _, _, _, _, _, _, _, _, _, _, hr⟩ := gen_ball_push_elim hc
    rw [hr]; exact ⟨rfl, rfl⟩
  · obtain ⟨adj, _, _, _, _, _, _, _, _, _, _, _, _, _, hr⟩ := gen_attacker_jump_elim hc
    rw [hr]; exact ⟨rfl, rfl⟩
  · obtain ⟨tgt, _, _, _, _, _, _, _, _, _, _, _, _, _, _, hr⟩ := gen_defender_tackle_elim hc
    rw [hr]; exact ⟨rfl, rfl⟩

/-- A board produced by a defender tackle has the tackler's origin cell empty. -/
theorem tackle_from_empty {board : ChessBallBoard} {p : Player}
    {m : MoveInfo} {r : ChessBallBoard} (h : (m, r) ∈ possible_moves board p)
    (ht : m.tackle = true) : r.get_piece m.from_sq.1 m.from_sq.2 = none := by
  obtain ⟨rr, cc, piece, d, hrr, hcc, hp, hpl, hd, hc⟩ := mem_possible_moves_elim h
  rcases hc with hc | hc | hc | hc
  · obtain ⟨_, _, _, _, _, hm, _⟩ := gen_simple_elim hc
    rw [hm] at ht; simp [MoveInfo.simple] at ht
  · obtain ⟨tgt, _, _, _, _, _, _, _, _, _, _, _, _, hm, _⟩ := gen_ball_push_elim hc
    rw [hm] at ht; simp [MoveInfo.simple] at ht
  · obtain ⟨adj, _, _, _, _, _, _, _, _, _, _, _, _, hm, _⟩ := gen_attacker_jump_elim hc
    rw [hm] at ht; simp [MoveInfo.simple] at ht
  · obtain ⟨tgt, hdef, hb1, hb2, hb3, hb4, hb5, hb6, hb7, hb8, htgt, hne, hnb, hfree, hm, hr⟩ :=
      gen_defender_tackle_elim hc
    have hfrom : m.from_sq = (rr, cc) := by rw [hm]; rfl
    rw [hfrom]
    rw [hr]
    show (((((board.remove_piece _ _).place_piece _ _ tgt).remove_piece rr cc).place_piece
      _ _ piece)).cells.getD _ none = none
    rw [cells_place_piece, cells_remove_piece, cells_place_piece, cells_remove_piece]
    have hccols : ∀ (b2 : ChessBallBoard), b2.cols = board.cols → ∀ rq cq,
        b2.idx rq cq = rq * board.cols + cq := by
      intro b2 hbc rq cq
      unfold ChessBallBoard.idx
      rw [hbc]
    -- all four `idx` computations use `board.cols`
    simp only [ChessBallBoard.idx, cols_place_piece, cols_remove_piece]
    set nrn := ((rr : Int) + d.1).toNat with hnrn
    set ncn := ((cc : Int) + d.2).toNat with hncn
    have hnc_lt : ncn < board.cols := by
      rw [hncn]
      omega
    have hccol : cc < board.cols := hcc
    have hne_coord : ¬ (nrn = rr ∧ ncn = cc) := by
      rintro ⟨h1, h2⟩
      apply directions_ne_zero hd
      constructor
      · omega
      · omega
    have hiA_lt : rr * board.cols + cc < board.cells.length := by
      apply @lt_length_of_getD_ne (Option Piece) board.cells (rr * board.cols + cc) none
      rw [show rr * board.cols + cc = board.idx rr cc from rfl]
      rw [show board.cells.getD (board.idx rr cc) none = board.get_piece rr cc from rfl]
      rw [hp]
      simp
    have hiN_ne_iA : nrn * board.cols + ncn ≠ rr * board.cols + cc := by
      intro heq
      exact hne_coord (idx_inj hnc_lt hccol heq)
    rw [getD_set_ne _ _ _ hiN_ne_iA]
    rw [getD_set_self]
    simp [hiA_lt]

/-- C1 — Anti-oscillation: for every board `r` produced by a defender-tackle
move by player `p` from origin `A` that pushed an opponent piece from `B` to
`C`, the move list `possible_moves r (opponent p)` contains no attacker-jump or
defender-tackle move whose (jumped-over / tackled-piece's-from, mover's origin)
pair equals `(B, A)`.  (In the embedded code this holds because the tackler's
origin `A` is vacated by the tackle, so no reply can start from `A`.) -/
theorem anti_oscillation_after_tackle (b : ChessBallBoard) (p : Player)
    (m : MoveInfo) (r : ChessBallBoard) (A B C : Nat × Nat)
    (hmem : (m, r) ∈ possible_moves b p) (ht : m.tackle = true)
    (hA : m.from_sq = A) (_hB : m.pushed_piece_from = some B)
    (_hC : m.pushed_piece_to = some C) :
    ((possible_moves r (opponent p)).all fun y =>
      !((y.1.jump && y.1.jumped_over == some B ||
         y.1.tackle && y.1.pushed_piece_from == some B) && y.1.from_sq == A)) = true := by
  rw [List.all_eq_true]
  rintro ⟨m2, r2⟩ hy
  rw [Bool.not_eq_true']
  rw [Bool.and_eq_false_iff]
  right
  have hempty := tackle_from_empty hmem ht
  rw [hA] at hempty
  obtain ⟨piece2, hp2, _⟩ := possible_moves_from_piece hy
  rw [beq_eq_false_iff_ne]
  intro hfrom
  rw [hfrom] at hp2
  rw [hempty] at hp2
  exact Option.noConfusion hp2

/-- Board-building helper for concrete witness positions. -/
def mkBoard (rows cols : Nat) (ps : List (Nat × Nat × Piece)) : ChessBallBoard :=
  ps.foldl (fun b q => b.place_piece q.1 q.2.1 q.2.2)
    { rows := rows, cols := cols, cells := List.replicate (rows * cols) none,
      prev_tackle := none }

/-- 4×6 board: White defender at (2,2), Black attacker at (2,3). -/
def tackleDemoBoard : ChessBallBoard :=
  mkBoard 4 6 [(2, 2, ⟨PieceType.Defender, Player.White⟩),
               (2, 3, ⟨PieceType.Attacker, Player.Black⟩)]

/-- The tackle move (2,2)→(2,3), pushing the Black attacker (2,3)→(2,4). -/
def tackleDemoMove : MoveInfo :=
  { MoveInfo.simple (2, 2) (2, 3) with
    tackle := true, pushed_piece_from := some (2, 3), pushed_piece_to := some (2, 4) }

/-- The board after `tackleDemoMove`. -/
def tackleDemoResult : ChessBallBoard :=
  (((tackleDemoBoard.remove_piece 2 3).place_piece 2 4
      ⟨PieceType.Attacker, Player.Black⟩).remove_piece 2 2).place_piece 2 3
      ⟨PieceType.Defender, Player.White⟩

theorem anti_oscillation_after_tackle_witness :
    ((possible_moves tackleDemoResult (opponent Player.White)).all fun y =>
      !((y.1.jump && y.1.jumped_over == some ((2, 3) : Nat × Nat) ||
         y.1.tackle && y.1.pushed_piece_from == some ((2, 3) : Nat × Nat)) &&
        y.1.from_sq == ((2, 2) : Nat × Nat))) = true :=
  anti_oscillation_after_tackle tackleDemoBoard Player.White tackleDemoMove
    tackleDemoResult (2, 2) (2, 3) (2, 4) (by decide) (by decide) (by decide)
    (by decide) (by decide)

/-! ### C3 and C8: the search engine -/

/-- C3 — Search terminal correctness: if `winning_moves b p` is non-empty then
`choose_best_move b p d` (any depth) returns some move together with score
`+∞` and a resulting board whose ball lies on `p`'s goal row (row 0 for Black,
row `rows − 1` otherwise). -/
theorem choose_best_move_terminal (b : ChessBallBoard) (p : Player) (d : Nat)
    (hw : winning_moves b p ≠ []) :
    ∃ mv b2 bc, choose_best_move b p d = some (some mv, some b2, Score.posInf) ∧
      b2.find_ball = some bc ∧
      bc.r = (if p = Player.Black then (0 : Int) else ((b.rows - 1 : Nat) : Int)) := by
  have hverse : ∃ x ∈ possible_moves b p, ∃ bc : Coord, x.2.find_ball = some bc ∧
      bc.r = (if p = Player.Black then (0 : Int) else ((b.rows - 1 : Nat) : Int)) := by
    by_contra hno
    push_neg at hno
    apply hw
    unfold winning_moves
    rw [List.filterMap_eq_nil_iff]
    intro x hx
    cases hb : x.2.find_ball with
    | none => simp
    | some bc =>
      simp only [hb]
      have hne := hno x hx bc hb
      split
      · rename_i hcr
        exfalso
        apply hne
        rw [hcr]
        cases p <;> simp
      · rfl
  obtain ⟨x, hx, bc, hball, hrow⟩ := hverse
  have hpred : ∀ y ∈ possible_moves b p, ((match y.2.find_ball with
      | some c =>
        decide (c.r = ((if p = Player.Black then 0 else y.2.rows - 1 : Nat) : Int))
      | none => false) = true ↔ ∃ c : Coord, y.2.find_ball = some c ∧
        c.r = (if p = Player.Black then (0 : Int) else ((b.rows - 1 : Nat) : Int))) := by
    intro y hy
    have hy' : (y.1, y.2) ∈ possible_moves b p := by simpa using hy
    have hdims := (dims_of_mem_possible_moves hy').1
    cases hyb : y.2.find_ball with
    | none => simp
    | some c =>
      simp only [hyb, decide_eq_true_eq, Option.some.injEq]
      rw [hdims]
      constructor
      · intro hcr
        refine ⟨c, rfl, ?_⟩
        rw [hcr]
        by_cases hpb : p = Player.Black <;> simp [hpb]
      · rintro ⟨c2, hc2, hcr⟩
        cases hc2
        rw [hcr]
        by_cases hpb : p = Player.Black <;> simp [hpb]
  have hfind : ∃ y, (possible_moves b p).find? (fun y =>
      match y.2.find_ball with
      | some c =>
        decide (c.r = ((if p = Player.Black then 0 else y.2.rows - 1 : Nat) : Int))
      | none => false) = some y := by
    rw [← Option.isSome_iff_exists]
    rw [List.find?_isSome]
    exact ⟨x, hx, (hpred x hx).mpr ⟨bc, hball, hrow⟩⟩
  obtain ⟨y, hy⟩ := hfind
  have hymem := List.mem_of_find?_eq_some hy
  have hyp := List.find?_some hy
  have hyconc := (hpred y hymem).mp hyp
  obtain ⟨c, hyc, hycr⟩ := hyconc
  have hiw : has_immediate_win b p = some y := by
    unfold has_immediate_win
    rw [if_neg (by simpa [List.isEmpty_iff] using hw)]
    exact hy
  refine ⟨y.1, y.2, c, ?_, hyc, hycr⟩
  unfold choose_best_move
  rw [hiw]

/-- C8 (amended) — if `possible_moves b p` is empty then `choose_best_move`
returns `none` for both the chosen move and the resulting board (whenever it
returns at all). -/
theorem choose_best_move_none_of_no_moves (b : ChessBallBoard) (p : Player)
    (d : Nat) (h : possible_moves b p = []) :
    (choose_best_move b p d).all (fun x => x.1 == none && x.2.1 == none) = true := by
  have hwin : winning_moves b p = [] := by
    unfold winning_moves
    rw [h]
    rfl
  have hiw : has_immediate_win b p = none := by
    unfold has_immediate_win
    rw [hwin]
    simp
  unfold choose_best_move
  rw [hiw]
  by_cases hopp : (has_immediate_win b (opponent p)).isSome
  · simp [hopp]
  · have hmm : minimax b p d true p =
        (featSum b p).map fun q => (Score.fin q, none, none) := by
      cases d with
      | zero =>
        unfold minimax
        rw [hiw]
        simp [hopp]
      | succ d' =>
        unfold minimax
        rw [hiw]
        simp only [hopp, Bool.false_eq_true, if_false]
        rw [h]
        simp
    simp only [Bool.not_eq_true] at hopp
    simp only [hopp, Bool.false_eq_true, if_false, hmm]
    cases featSum b p with
    | none => simp
    | some q => simp

/-- 2×2 board with no pieces: no legal moves at all. -/
def emptyTinyBoard : ChessBallBoard := mkBoard 2 2 []

theorem choose_best_move_none_of_no_moves_witness :
    (choose_best_move emptyTinyBoard Player.White 3).all
      (fun x => x.1 == none && x.2.1 == none) = true :=
  choose_best_move_none_of_no_moves emptyTinyBoard Player.White 3 (by decide)

/-- 4×5 board with a single White defender at (2,2): White has legal moves. -/
def noBallBoard : ChessBallBoard :=
  mkBoard 4 5 [(2, 2, ⟨PieceType.Defender, Player.White⟩)]

/-- C8 counterexample: at depth 0 with legal moves available and no immediate
win on either side, `choose_best_move` still returns `none` as the chosen
move, refuting "None if and only if `possible_moves` is empty". -/
theorem choose_best_move_none_counterexample :
    ((choose_best_move noBallBoard Player.White 0).map fun x => x.1) = some none ∧
    possible_moves noBallBoard Player.White ≠ [] := by
  constructor
  · decide
  · decide

/-- 6×7 board: White defender at (3,3) behind the ball at (4,3); pushing the
ball to (5,3) reaches White's goal row. -/
def winDemoBoard : ChessBallBoard :=
  mkBoard 6 7 [(3, 3, ⟨PieceType.Defender, Player.White⟩),
               (4, 3, ⟨PieceType.Ball, Player.Neutral⟩)]

theorem choose_best_move_terminal_witness :
    ∃ mv b2 bc, choose_best_move winDemoBoard Player.White 1 =
        some (some mv, some b2, Score.posInf) ∧
      b2.find_ball = some bc ∧
      bc.r = (if Player.White = Player.Black then (0 : Int)
              else ((winDemoBoard.rows - 1 : Nat) : Int)) :=
  choose_best_move_terminal winDemoBoard Player.White 1 (by decide)

theorem find_blocking_move_correct_witness :
    ∃ r, (MoveInfo.simple (2, 2) (1, 2), r) ∈ possible_moves noBallBoard Player.White ∧
      winning_moves r (opponent Player.White) = [] :=
  (find_blocking_move_correct noBallBoard Player.White).1
    (MoveInfo.simple (2, 2) (1, 2)) (by decide)

theorem is_win_avoidable_by_opponent_correct_witness :
    is_win_avoidable_by_opponent noBallBoard Player.White = false :=
  (is_win_avoidable_by_opponent_correct noBallBoard Player.White).1 (by decide)

/-! ### C6: the retrograde ball-push branch -/

/-- 3×5 board: White defender at (1,2), ball at (1,3); cell (1,1) is free and
none of the involved columns is forbidden. -/
def retroDemoBoard : ChessBallBoard :=
  mkBoard 3 5 [(1, 2, ⟨PieceType.Defender, Player.White⟩),
               (1, 3, ⟨PieceType.Ball, Player.Neutral⟩)]

/-- The predecessor the spec demands: the defender back at (1,1), the ball on
(1,2); the forward ball-push (1,1)→(1,2) pushing the ball to (1,3) reproduces
`retroDemoBoard`. -/
def retroPredBoard : ChessBallBoard :=
  mkBoard 3 5 [(1, 1, ⟨PieceType.Defender, Player.White⟩),
               (1, 2, ⟨PieceType.Ball, Player.Neutral⟩)]

/-- C6 evaluation at the failing input: the claim's premises hold (White piece
at Q=(1,2), ball at Q+d=(1,3) for d=(0,1), Q−d=(1,1) in-bounds and empty, ball
source column 2 not forbidden), the forward ball-push from `retroPredBoard`
reproduces `retroDemoBoard`, yet `possible_previous_moves` contains no
ball-push predecessor at all: its reverse-push branch demands the current ball
on the moving piece's own cell, which never holds. -/
theorem possible_previous_moves_missing_push :
    retroDemoBoard.get_piece 1 2 = some ⟨PieceType.Defender, Player.White⟩ ∧
    retroDemoBoard.get_piece 1 3 = some ⟨PieceType.Ball, Player.Neutral⟩ ∧
    retroDemoBoard.get_piece 1 1 = none ∧
    ¬ retroDemoBoard.is_forbidden_col 2 ∧
    ((possible_moves retroPredBoard Player.White).any
      (fun x => x.1.push_ball && x.2 == retroDemoBoard)) = true ∧
    ((possible_previous_moves retroDemoBoard Player.White).all
      (fun x => x.1.push_ball == false)) = true := by
  refine ⟨by decide, by decide, by decide, by decide, by decide, by decide⟩

/-! ### C9: opponent pieces between ball and goal -/

/-- Modelled from the spec (the feature's specified meaning, for comparison
with the implementation): the number of non-Ball pieces not owned by `player`
whose row lies strictly between the ball's row and the player's goal row. -/
def spec_count_opponent_between (board : ChessBallBoard) (player : Player) : Nat :=
  match board.find_ball with
  | some ball_coord =>
    let goal_row : Int := if player = Player.White then (board.rows : Int) - 1 else 0
    let lo := min ball_coord.r goal_row
    let hi := max ball_coord.r goal_row
    board.iter_coords.foldl (fun count coord =>
      if lo < coord.r ∧ coord.r < hi then
        match board.get_piece_at coord with
        | some p =>
          if p.player ≠ player ∧ p.piece_type ≠ PieceType.Ball then count + 1 else count
        | none => count
      else count) 0
  | none => 0

/-- 6×7 board: ball at (3,3), a White attacker at (5,1); for Black the goal
row is 0, so no opponent piece lies strictly between rows 0 and 3. -/
def betweenDemoBoard : ChessBallBoard :=
  mkBoard 6 7 [(3, 3, ⟨PieceType.Ball, Player.Neutral⟩),
               (5, 1, ⟨PieceType.Attacker, Player.White⟩)]

/-- C9 evaluation at the failing input: the implementation counts every
opponent piece with row > min(ball row, goal row) — with no upper bound — so
for Black it also counts pieces beyond the ball (row 5 here), returning 1
where the specified count of pieces strictly between rows 0 and 3 is 0. -/
theorem count_opponent_between_bug :
    count_opponent_pieces_between_ball_and_goal betweenDemoBoard Player.Black = 1 ∧
    spec_count_opponent_between betweenDemoBoard Player.Black = 0 := by
  refine ⟨by decide, by decide⟩

/-! ### C10: evaluator panic-freedom under the board invariants -/

/-- A cell holding the ball. -/
def isBallCell : Option Piece → Bool
  | some p => decide (p.piece_type = PieceType.Ball)
  | none => false

/-- Number of Ball cells on the board. -/
def ballCount (b : ChessBallBoard) : Nat := b.cells.countP isBallCell

/-- The invariant "no Neutral-owned piece other than the Ball". -/
def onlyNeutralBall (b : ChessBallBoard) : Bool :=
  b.cells.all fun q =>
    match q with
    | some pc => !(decide (pc.player = Player.Neutral)) || decide (pc.piece_type = PieceType.Ball)
    | none => true

/-- Two distinct positions satisfying a predicate force a count of at least 2. -/
theorem two_le_countP {α : Type} (p : α → Bool) (d : α) :
    ∀ (l : List α) (i j : Nat), i < j → j < l.length →
      p (l.getD i d) = true → p (l.getD j d) = true → 2 ≤ l.countP p := by
  intro l
  induction l with
  | nil => intro i j _ hj _ _; simp at hj
  | cons a t ih =>
    intro i j hij hj hpi hpj
    cases i with
    | zero =>
      cases j with
      | zero => omega
      | succ j' =>
        have hpa : p a = true := hpi
        have hj' : j' < t.length := by simpa using hj
        have hmem : t.getD j' d ∈ t := by
          rw [List.getD_eq_getElem _ _ hj']
          exact List.getElem_mem hj'
        have hpos : 0 < t.countP p := by
          rw [List.countP_pos_iff]
          exact ⟨_, hmem, hpj⟩
        rw [List.countP_cons_of_pos _ _ hpa]
        omega
    | succ i' =>
      cases j with
      | zero => omega
      | succ j' =>
        have := ih i' j' (by omega) (by simpa using hj) hpi hpj
        rw [List.countP_cons]
        omega

/-- The ball found by `find_ball` sits on a checked coordinate holding a Ball. -/
theorem find_ball_spec {b : ChessBallBoard} {bc : Coord} (h : b.find_ball = some bc) :
    0 ≤ bc.r ∧ 0 ≤ bc.c ∧ bc.r < (b.rows : Int) ∧ bc.c < (b.cols : Int) ∧
    isBallCell (b.cells.getD (bc.r.toNat * b.cols + bc.c.toNat) none) = true := by
  have hmem := List.mem_of_find?_eq_some h
  have hpred := List.find?_some h
  unfold ChessBallBoard.iter_coords at hmem
  rw [List.mem_map] at hmem
  obtain ⟨i, hi, hbc⟩ := hmem
  rw [List.mem_range] at hi
  have hcols : 0 < b.cols := by
    rcases Nat.eq_zero_or_pos b.cols with h0 | h0
    · rw [h0] at hi; simp at hi
    · exact h0
  have hdiv : i / b.cols < b.rows := by
    apply (Nat.div_lt_iff_lt_mul hcols).mpr
    rwa [Nat.mul_comm] at hi
  have hmod : i % b.cols < b.cols := Nat.mod_lt _ hcols
  subst hbc
  refine ⟨by positivity, by positivity,
    by show ((i / b.cols : Nat) : Int) < (b.rows : Int); exact_mod_cast hdiv,
    by show ((i % b.cols : Nat) : Int) < (b.cols : Int); exact_mod_cast hmod, ?_⟩
  simp only [Int.toNat_natCast]
  cases hcell : b.cells.getD (i / b.cols * b.cols + i % b.cols) none with
  | none =>
    simp only [Int.toNat_natCast, hcell] at hpred
    simp at hpred
  | some q =>
    simp only [Int.toNat_natCast, hcell] at hpred
    simp only [isBallCell, hcell]
    exact hpred

/-- Folding an `Option`-valued accumulator stays `some` when every step does. -/
theorem foldl_option_isSome {α β : Type} (f : Option α → β → Option α) (l : List β)
    (hstep : ∀ acc d, d ∈ l → (f (some acc) d).isSome = true) :
    ∀ acc : Option α, acc.isSome = true → (l.foldl f acc).isSome = true := by
  induction l with
  | nil => intro acc h; simpa using h
  | cons a t ih =>
    intro acc h
    obtain ⟨v, hv⟩ := Option.isSome_iff_exists.mp h
    subst hv
    exact ih (fun acc2 d hd => hstep acc2 d (List.mem_cons_of_mem _ hd)) _
      (hstep v a (List.mem_cons_self _ _))

/-- C10 — Evaluator panic-freedom: on a board with exactly one Ball cell and
no Neutral-owned piece other than that Ball, `count_control_around_ball` never
reaches its `unreachable!` branches and `feature_vector` (the leaf evaluation
of the search) returns without panicking. -/
theorem evaluator_no_panic (b : ChessBallBoard) (p : Player)
    (h1 : ballCount b = 1) (h2 : onlyNeutralBall b = true) :
    (count_control_around_ball b p).isSome = true ∧
    (feature_vector b p).isSome = true := by
  have hcc : (count_control_around_ball b p).isSome = true := by
    unfold count_control_around_ball
    cases hfb : b.find_ball with
    | none => simp
    | some bc =>
      obtain ⟨hr0, hc0, hrlt, hclt, hball⟩ := find_ball_spec hfb
      apply foldl_option_isSome
      intro acc d hd
      simp only [Option.some_bind]
      by_cases hob : b.is_on_board ⟨bc.r + d.1, bc.c + d.2⟩
      · rw [if_neg (by simpa using hob)]
        have hob' : 0 ≤ bc.r + d.1 ∧ bc.r + d.1 < (b.rows : Int) ∧
            0 ≤ bc.c + d.2 ∧ bc.c + d.2 < (b.cols : Int) := hob
        obtain ⟨hob1, hob2, hob3, hob4⟩ := hob'
        cases hgp : b.get_piece_at ⟨bc.r + d.1, bc.c + d.2⟩ with
        | none => simp
        | some pc =>
          obtain ⟨pt, pl⟩ := pc
          have hadj_idx : b.cells.getD
              ((bc.r + d.1).toNat * b.cols + (bc.c + d.2).toNat) none = some ⟨pt, pl⟩ := hgp
          have hadj_lt : (bc.r + d.1).toNat * b.cols + (bc.c + d.2).toNat <
              b.cells.length := by
            apply lt_length_of_getD_ne
            rw [hadj_idx]
            simp
          have hball_lt : bc.r.toNat * b.cols + bc.c.toNat < b.cells.length := by
            apply lt_length_of_getD_ne
            intro hnone
            rw [hnone] at hball
            simp [isBallCell] at hball
          have hidx_ne : (bc.r + d.1).toNat * b.cols + (bc.c + d.2).toNat ≠
              bc.r.toNat * b.cols + bc.c.toNat := by
            intro heq
            have hcl1 : (bc.c + d.2).toNat < b.cols := by omega
            have hcl2 : bc.c.toNat < b.cols := by omega
            obtain ⟨he1, he2⟩ := idx_inj hcl1 hcl2 heq
            exact directions_ne_zero hd ⟨by omega, by omega⟩
          cases pt with
          | Ball =>
            exfalso
            have hadj_ball : isBallCell (b.cells.getD
                ((bc.r + d.1).toNat * b.cols + (bc.c + d.2).toNat) none) = true := by
              rw [hadj_idx]; simp [isBallCell]
            have h2le : 2 ≤ ballCount b := by
              unfold ballCount
              rcases Nat.lt_trichotomy ((bc.r + d.1).toNat * b.cols + (bc.c + d.2).toNat)
                  (bc.r.toNat * b.cols + bc.c.toNat) with hlt | heq | hgt
              · exact two_le_countP isBallCell none b.cells _ _ hlt hball_lt hadj_ball hball
              · exact absurd heq hidx_ne
              · exact two_le_countP isBallCell none b.cells _ _ hgt hadj_lt hball hadj_ball
            omega
          | Attacker =>
            cases pl with
            | Neutral =>
              exfalso
              have hmem : (some (⟨PieceType.Attacker, Player.Neutral⟩ : Piece)) ∈ b.cells := by
                rw [← hadj_idx, List.getD_eq_getElem _ _ hadj_lt]
                exact List.getElem_mem hadj_lt
              have := List.all_eq_true.mp h2 _ hmem
              simp at this
            | White => split <;> first | (split <;> rfl) | simp_all
            | Black => split <;> first | (split <;> rfl) | simp_all
          | Defender =>
            cases pl with
            | Neutral =>
              exfalso
              have hmem : (some (⟨PieceType.Defender, Player.Neutral⟩ : Piece)) ∈ b.cells := by
                rw [← hadj_idx, List.getD_eq_getElem _ _ hadj_lt]
                exact List.getElem_mem hadj_lt
              have := List.all_eq_true.mp h2 _ hmem
              simp at this
            | White => split <;> first | (split <;> rfl) | simp_all
            | Black => split <;> first | (split <;> rfl) | simp_all
      · rw [if_pos (by simpa using hob)]
        simp
      · rfl
  refine ⟨hcc, ?_⟩
  unfold feature_vector
  simpa using hcc

/-- 4×5 board: ball at (1,2) with a White defender and a Black attacker near
it; exactly one Ball, no other Neutral piece. -/
def controlDemoBoard : ChessBallBoard :=
  mkBoard 4 5 [(1, 2, ⟨PieceType.Ball, Player.Neutral⟩),
               (1, 1, ⟨PieceType.Defender, Player.White⟩),
               (2, 3, ⟨PieceType.Attacker, Player.Black⟩)]

theorem evaluator_no_panic_witness :
    (count_control_around_ball controlDemoBoard Player.White).isSome = true ∧
    (feature_vector controlDemoBoard Player.White).isSome = true :=
  evaluator_no_panic controlDemoBoard Player.White (by decide) (by decide)

/-! ### C5: move legality closure (frame effect) -/

/-- Number of grid positions whose contents differ between two boards (the
grid being the `rows × cols` range of the source board). -/
def diffCount (b r : ChessBallBoard) : Nat :=
  ((Finset.range (b.rows * b.cols)).filter fun j =>
    b.cells.getD j none ≠ r.cells.getD j none).card

theorem filter_diff_eq_of_pointwise (n : Nat) (cells cells' : List (Option Piece))
    (S : Finset Nat) (hmem : ∀ j ∈ S, j < n)
    (hin : ∀ j ∈ S, cells.getD j none ≠ cells'.getD j none)
    (hout : ∀ j, j < n → j ∉ S → cells.getD j none = cells'.getD j none) :
    ((Finset.range n).filter fun j => cells.getD j none ≠ cells'.getD j none).card
      = S.card := by
  congr 1
  ext j
  simp only [Finset.mem_filter, Finset.mem_range]
  constructor
  · rintro ⟨hj, hne⟩
    by_contra hns
    exact hne (hout j hj hns)
  · intro hs
    exact ⟨hmem j hs, hin j hs⟩

/-- Effect of a single store on a `countP` (stated additively). -/
theorem countP_set_add (p : Option Piece → Bool) :
    ∀ (l : List (Option Piece)) (i : Nat) (v : Option Piece), i < l.length →
      (l.set i v).countP p + (if p (l.getD i none) then 1 else 0) =
        l.countP p + (if p v then 1 else 0) := by
  intro l
  induction l with
  | nil => intro i v h; simp at h
  | cons a t ih =>
    intro i v h
    cases i with
    | zero =>
      rcases hpv : p v <;> rcases hpa : p a <;>
        simp [List.set_cons_zero, List.getD_cons_zero, List.countP_cons, hpv, hpa]
    | succ i' =>
      have := ih i' v (by simpa using h)
      simp only [List.set_cons_succ, List.countP_cons, List.getD_cons_succ]
      omega

/-- Checked row-major indices stay inside the grid range. -/
theorem idx_lt_total {rows cols r c : Nat} (hr : r < rows) (hc : c < cols) :
    r * cols + c < rows * cols := by
  calc r * cols + c < r * cols + cols := by omega
    _ = (r + 1) * cols := by ring
    _ ≤ rows * cols := Nat.mul_le_mul_right _ hr

/-- Two distinct cells cannot both hold a Ball when the board has exactly one. -/
theorem not_both_ball {b : ChessBallBoard} (hone : ballCount b = 1)
    {i j : Nat} (hij : i ≠ j) (hi : i < b.cells.length) (hj : j < b.cells.length)
    (hbi : isBallCell (b.cells.getD i none) = true) :
    isBallCell (b.cells.getD j none) = false := by
  by_contra hc
  rw [Bool.not_eq_false] at hc
  have h2 : 2 ≤ ballCount b := by
    unfold ballCount
    rcases Nat.lt_trichotomy i j with hlt | heq | hgt
    · exact two_le_countP isBallCell none b.cells i j hlt hj hbi hc
    · exact absurd heq hij
    · exact two_le_countP isBallCell none b.cells j i hgt hi hc hbi
  omega

/-- C5 — Move legality closure: on a well-formed board with exactly one Ball
cell, every `(move, result)` of `possible_moves` changes exactly 2 cells for a
simple move or attacker jump and exactly 3 cells for a ball push or defender
tackle (all other cells keep their contents), and the result again has exactly
one Ball cell. -/
theorem possible_moves_frame (b : ChessBallBoard) (p : Player)
    (hwf : b.cells.length = b.rows * b.cols) (hone : ballCount b = 1)
    (m : MoveInfo) (r : ChessBallBoard) (hmem : (m, r) ∈ possible_moves b p) :
    diffCount b r = (if m.push_ball || m.tackle then 3 else 2) ∧ ballCount r = 1 := by
  obtain ⟨rr, cc, piece, d, hrr, hcc, hp, hpl, hd, hc⟩ := mem_possible_moves_elim hmem
  have hdnz := directions_ne_zero hd
  have holdF : b.cells.getD (rr * b.cols + cc) none = some piece := hp
  have hiF_lt_n : rr * b.cols + cc < b.rows * b.cols := idx_lt_total hrr hcc
  have hlenF : rr * b.cols + cc < b.cells.length := by omega
  rcases hc with hc | hc | hc | hc
  · -- simple move: 2 cells change
    obtain ⟨hnr0, hnc0, hnrlt, hnclt, hempty, hm, hr⟩ := gen_simple_elim hc
    have hmflags : (m.push_ball || m.tackle) = false := by
      rw [hm]; rfl
    have hcells : r.cells = (b.cells.set (rr * b.cols + cc) none).set
        ((((rr : Int) + d.1).toNat) * b.cols + (((cc : Int) + d.2).toNat)) (some piece) := by
      rw [hr]; rfl
    have hnT_lt : ((rr : Int) + d.1).toNat < b.rows := by omega
    have hcT_lt : ((cc : Int) + d.2).toNat < b.cols := by omega
    have hiT_lt_n : (((rr : Int) + d.1).toNat) * b.cols + (((cc : Int) + d.2).toNat) <
        b.rows * b.cols := idx_lt_total hnT_lt hcT_lt
    have hlenT : (((rr : Int) + d.1).toNat) * b.cols + (((cc : Int) + d.2).toNat) <
        b.cells.length := by omega
    have holdT : b.cells.getD
        ((((rr : Int) + d.1).toNat) * b.cols + (((cc : Int) + d.2).toNat)) none = none :=
      hempty
    have hne : rr * b.cols + cc ≠
        (((rr : Int) + d.1).toNat) * b.cols + (((cc : Int) + d.2).toNat) := by
      intro heq
      obtain ⟨h1, h2⟩ := idx_inj hcc hcT_lt heq
      exact hdnz ⟨by omega, by omega⟩
    constructor
    · rw [hmflags, if_neg (by simp)]
      unfold diffCount
      rw [hcells]
      rw [filter_diff_eq_of_pointwise _ _ _
        ({rr * b.cols + cc,
          (((rr : Int) + d.1).toNat) * b.cols + (((cc : Int) + d.2).toNat)} : Finset Nat)]
      · rw [Finset.card_insert_of_not_mem (by simp [hne]), Finset.card_singleton]
      · intro j hj
        simp only [Finset.mem_insert, Finset.mem_singleton] at hj
        rcases hj with hj | hj <;> omega
      · intro j hj
        simp only [Finset.mem_insert, Finset.mem_singleton] at hj
        rcases hj with hj | hj <;> subst hj
        · rw [getD_set_ne _ _ _ (Ne.symm hne), getD_set_self _ _ _ (by simpa using hlenF)]
          rw [holdF]
          simp
        · rw [getD_set_self _ _ _ (by simpa using hlenT)]
          rw [holdT]
          simp
      · intro j _ hjs
        simp only [Finset.mem_insert, Finset.mem_singleton] at hjs
        push_neg at hjs
        rw [getD_set_ne _ _ _ (fun h => hjs.2 h.symm), getD_set_ne _ _ _ (fun h => hjs.1 h.symm)]
    · unfold ballCount
      rw [hcells]
      have s1 := countP_set_add isBallCell b.cells (rr * b.cols + cc) none hlenF
      rw [holdF] at s1
      have s2 := countP_set_add isBallCell (b.cells.set (rr * b.cols + cc) none)
        ((((rr : Int) + d.1).toNat) * b.cols + (((cc : Int) + d.2).toNat)) (some piece)
        (by simpa using hlenT)
      rw [getD_set_ne _ _ _ hne, holdT] at s2
      unfold ballCount at hone
      cases hx : isBallCell (some piece) <;>
        simp only [hx, isBallCell, if_true, if_false, Bool.false_eq_true] at s1 s2 <;>
        omega
  · -- ball push: 3 cells change
    obtain ⟨tgt, hnr0, hnc0, hnrlt, hnclt, htgt, hball, hbr0, hbc0, hbrlt, hbclt,
      hfree, hforb, hm, hr⟩ := gen_ball_push_elim hc
    have hmflags : (m.push_ball || m.tackle) = true := by
      rw [hm]; rfl
    have hcells : r.cells = ((b.cells.set (rr * b.cols + cc) none).set
        ((((rr : Int) + d.1).toNat) * b.cols + (((cc : Int) + d.2).toNat)) (some piece)).set
        ((((rr : Int) + 2 * d.1).toNat) * b.cols + (((cc : Int) + 2 * d.2).toNat))
        (some { piece_type := PieceType.Ball, player := Player.Neutral }) := by
      rw [hr]; rfl
    have hnB_lt : ((rr : Int) + d.1).toNat < b.rows := by omega
    have hcB_lt : ((cc : Int) + d.2).toNat < b.cols := by omega
    have hnC_lt : ((rr : Int) + 2 * d.1).toNat < b.rows := by omega
    have hcC_lt : ((cc : Int) + 2 * d.2).toNat < b.cols := by omega
    have hiB_lt_n : (((rr : Int) + d.1).toNat) * b.cols + (((cc : Int) + d.2).toNat) <
        b.rows * b.cols := idx_lt_total hnB_lt hcB_lt
    have hiC_lt_n : (((rr : Int) + 2 * d.1).toNat) * b.cols + (((cc : Int) + 2 * d.2).toNat) <
        b.rows * b.cols := idx_lt_total hnC_lt hcC_lt
    have hlenB : (((rr : Int) + d.1).toNat) * b.cols + (((cc : Int) + d.2).toNat) <
        b.cells.length := by omega
    have hlenC : (((rr : Int) + 2 * d.1).toNat) * b.cols + (((cc : Int) + 2 * d.2).toNat) <
        b.cells.length := by omega
    have holdB : b.cells.getD
        ((((rr : Int) + d.1).toNat) * b.cols + (((cc : Int) + d.2).toNat)) none = some tgt :=
      htgt
    have holdC : b.cells.getD
        ((((rr : Int) + 2 * d.1).toNat) * b.cols + (((cc : Int) + 2 * d.2).toNat)) none =
        none := hfree
    have hneFB : rr * b.cols + cc ≠
        (((rr : Int) + d.1).toNat) * b.cols + (((cc : Int) + d.2).toNat) := by
      intro heq
      obtain ⟨h1, h2⟩ := idx_inj hcc hcB_lt heq
      exact hdnz ⟨by omega, by omega⟩
    have hneFC : rr * b.cols + cc ≠
        (((rr : Int) + 2 * d.1).toNat) * b.cols + (((cc : Int) + 2 * d.2).toNat) := by
      intro heq
      obtain ⟨h1, h2⟩ := idx_inj hcc hcC_lt heq
      exact hdnz ⟨by omega, by omega⟩
    have hneBC : (((rr : Int) + d.1).toNat) * b.cols + (((cc : Int) + d.2).toNat) ≠
        (((rr : Int) + 2 * d.1).toNat) * b.cols + (((cc : Int) + 2 * d.2).toNat) := by
      intro heq
      obtain ⟨h1, h2⟩ := idx_inj hcB_lt hcC_lt heq
      exact hdnz ⟨by omega, by omega⟩
    have hpieceNotBall : isBallCell (some piece) = false := by
      rw [← holdF]
      apply not_both_ball hone (Ne.symm hneFB) hlenB hlenF
      rw [holdB]
      simp [isBallCell, hball]
    constructor
    · rw [hmflags, if_pos rfl]
      unfold diffCount
      rw [hcells]
      rw [filter_diff_eq_of_pointwise _ _ _
        ({rr * b.cols + cc,
          (((rr : Int) + d.1).toNat) * b.cols + (((cc : Int) + d.2).toNat),
          (((rr : Int) + 2 * d.1).toNat) * b.cols + (((cc : Int) + 2 * d.2).toNat)} :
          Finset Nat)]
      · rw [Finset.card_insert_of_not_mem (by simp [hneFB, hneFC]),
          Finset.card_insert_of_not_mem (by simp [hneBC]), Finset.card_singleton]
      · intro j hj
        simp only [Finset.mem_insert, Finset.mem_singleton] at hj
        rcases hj with hj | hj | hj <;> omega
      · intro j hj
        simp only [Finset.mem_insert, Finset.mem_singleton] at hj
        rcases hj with hj | hj | hj <;> subst hj
        · rw [getD_set_ne _ _ _ (Ne.symm hneFC), getD_set_ne _ _ _ (Ne.symm hneFB),
            getD_set_self _ _ _ (by simpa using hlenF)]
          rw [holdF]
          simp
        · rw [getD_set_ne _ _ _ (Ne.symm hneBC),
            getD_set_self _ _ _ (by simpa using hlenB)]
          rw [holdB]
          intro hcon
          rw [Option.some.injEq] at hcon
          rw [hcon] at hball
          simp [isBallCell, hball] at hpieceNotBall
        · rw [getD_set_self _ _ _ (by simpa using hlenC)]
          rw [holdC]
          simp
      · intro j _ hjs
        simp only [Finset.mem_insert, Finset.mem_singleton] at hjs
        push_neg at hjs
        rw [getD_set_ne _ _ _ (fun h => hjs.2.2 h.symm),
          getD_set_ne _ _ _ (fun h => hjs.2.1 h.symm),
          getD_set_ne _ _ _ (fun h => hjs.1 h.symm)]
    · unfold ballCount
      rw [hcells]
      have s1 := countP_set_add isBallCell b.cells (rr * b.cols + cc) none hlenF
      rw [holdF] at s1
      have s2 := countP_set_add isBallCell (b.cells.set (rr * b.cols + cc) none)
        ((((rr : Int) + d.1).toNat) * b.cols + (((cc : Int) + d.2).toNat)) (some piece)
        (by simpa using hlenB)
      rw [getD_set_ne _ _ _ hneFB, holdB] at s2
      have s3 := countP_set_add isBallCell
        ((b.cells.set (rr * b.cols + cc) none).set
          ((((rr : Int) + d.1).toNat) * b.cols + (((cc : Int) + d.2).toNat)) (some piece))
        ((((rr : Int) + 2 * d.1).toNat) * b.cols + (((cc : Int) + 2 * d.2).toNat))
        (some { piece_type := PieceType.Ball, player := Player.Neutral })
        (by simpa using hlenC)
      rw [getD_set_ne _ _ _ hneBC, getD_set_ne _ _ _ hneFC, holdC] at s3
      have htgtBall : isBallCell (some tgt) = true := by simp [isBallCell, hball]
      unfold ballCount at hone
      have hNB : isBallCell (some (Piece.mk PieceType.Ball Player.Neutral)) = true := rfl
      simp [htgtBall, hpieceNotBall, hNB, show isBallCell none = false from rfl] at s1 s2 s3
      omega
  · -- attacker jump: 2 cells change
    obtain ⟨adj, hatt, hnr0, hnc0, hjr0, hjc0, hnrlt, hnclt, hjrlt, hjclt,
      hadj, hadjnb, hjfree, hm, hr⟩ := gen_attacker_jump_elim hc
    have hmflags : (m.push_ball || m.tackle) = false := by
      rw [hm]; rfl
    have hcells : r.cells = (b.cells.set (rr * b.cols + cc) none).set
        ((((rr : Int) + 2 * d.1).toNat) * b.cols + (((cc : Int) + 2 * d.2).toNat))
        (some piece) := by
      rw [hr]; rfl
    have hnT_lt : ((rr : Int) + 2 * d.1).toNat < b.rows := by omega
    have hcT_lt : ((cc : Int) + 2 * d.2).toNat < b.cols := by omega
    have hiT_lt_n : (((rr : Int) + 2 * d.1).toNat) * b.cols + (((cc : Int) + 2 * d.2).toNat) <
        b.rows * b.cols := idx_lt_total hnT_lt hcT_lt
    have hlenT : (((rr : Int) + 2 * d.1).toNat) * b.cols + (((cc : Int) + 2 * d.2).toNat) <
        b.cells.length := by omega
    have holdT : b.cells.getD
        ((((rr : Int) + 2 * d.1).toNat) * b.cols + (((cc : Int) + 2 * d.2).toNat)) none =
        none := hjfree
    have hne : rr * b.cols + cc ≠
        (((rr : Int) + 2 * d.1).toNat) * b.cols + (((cc : Int) + 2 * d.2).toNat) := by
      intro heq
      obtain ⟨h1, h2⟩ := idx_inj hcc hcT_lt heq
      exact hdnz ⟨by omega, by omega⟩
    constructor
    · rw [hmflags, if_neg (by simp)]
      unfold diffCount
      rw [hcells]
      rw [filter_diff_eq_of_pointwise _ _ _
        ({rr * b.cols + cc,
          (((rr : Int) + 2 * d.1).toNat) * b.cols + (((cc : Int) + 2 * d.2).toNat)} :
          Finset Nat)]
      · rw [Finset.card_insert_of_not_mem (by simp [hne]), Finset.card_singleton]
      · intro j hj
        simp only [Finset.mem_insert, Finset.mem_singleton] at hj
        rcases hj with hj | hj <;> omega
      · intro j hj
        simp only [Finset.mem_insert, Finset.mem_singleton] at hj
        rcases hj with hj | hj <;> subst hj
        · rw [getD_set_ne _ _ _ (Ne.symm hne), getD_set_self _ _ _ (by simpa using hlenF)]
          rw [holdF]
          simp
        · rw [getD_set_self _ _ _ (by simpa using hlenT)]
          rw [holdT]
          simp
      · intro j _ hjs
        simp only [Finset.mem_insert, Finset.mem_singleton] at hjs
        push_neg at hjs
        rw [getD_set_ne _ _ _ (fun h => hjs.2 h.symm), getD_set_ne _ _ _ (fun h => hjs.1 h.symm)]
    · unfold ballCount
      rw [hcells]
      have s1 := countP_set_add isBallCell b.cells (rr * b.cols + cc) none hlenF
      rw [holdF] at s1
      have s2 := countP_set_add isBallCell (b.cells.set (rr * b.cols + cc) none)
        ((((rr : Int) + 2 * d.1).toNat) * b.cols + (((cc : Int) + 2 * d.2).toNat))
        (some piece) (by simpa using hlenT)
      rw [getD_set_ne _ _ _ hne, holdT] at s2
      unfold ballCount at hone
      cases hx : isBallCell (some piece) <;>
        simp only [hx, isBallCell, if_true, if_false, Bool.false_eq_true] at s1 s2 <;>
        omega
  · -- defender tackle: 3 cells change
    obtain ⟨tgt, hdef, hnr0, hnc0, hnrlt, hnclt, hbr0, hbc0, hbrlt, hbclt,
      htgt, htpl, htnb, hfree, hm, hr⟩ := gen_defender_tackle_elim hc
    have hmflags : (m.push_ball || m.tackle) = true := by
      rw [hm]; rfl
    have hcells : r.cells = (((b.cells.set
        ((((rr : Int) + d.1).toNat) * b.cols + (((cc : Int) + d.2).toNat)) none).set
        ((((rr : Int) + 2 * d.1).toNat) * b.cols + (((cc : Int) + 2 * d.2).toNat))
        (some tgt)).set (rr * b.cols + cc) none).set
        ((((rr : Int) + d.1).toNat) * b.cols + (((cc : Int) + d.2).toNat)) (some piece) := by
      rw [hr]; rfl
    have hnB_lt : ((rr : Int) + d.1).toNat < b.rows := by omega
    have hcB_lt : ((cc : Int) + d.2).toNat < b.cols := by omega
    have hnC_lt : ((rr : Int) + 2 * d.1).toNat < b.rows := by omega
    have hcC_lt : ((cc : Int) + 2 * d.2).toNat < b.cols := by omega
    have hiB_lt_n : (((rr : Int) + d.1).toNat) * b.cols + (((cc : Int) + d.2).toNat) <
        b.rows * b.cols := idx_lt_total hnB_lt hcB_lt
    have hiC_lt_n : (((rr : Int) + 2 * d.1).toNat) * b.cols + (((cc : Int) + 2 * d.2).toNat) <
        b.rows * b.cols := idx_lt_total hnC_lt hcC_lt
    have hlenB : (((rr : Int) + d.1).toNat) * b.cols + (((cc : Int) + d.2).toNat) <
        b.cells.length := by omega
    have hlenC : (((rr : Int) + 2 * d.1).toNat) * b.cols + (((cc : Int) + 2 * d.2).toNat) <
        b.cells.length := by omega
    have holdB : b.cells.getD
        ((((rr : Int) + d.1).toNat) * b.cols + (((cc : Int) + d.2).toNat)) none = some tgt :=
      htgt
    have holdC : b.cells.getD
        ((((rr : Int) + 2 * d.1).toNat) * b.cols + (((cc : Int) + 2 * d.2).toNat)) none =
        none := hfree
    have hneFB : rr * b.cols + cc ≠
        (((rr : Int) + d.1).toNat) * b.cols + (((cc : Int) + d.2).toNat) := by
      intro heq
      obtain ⟨h1, h2⟩ := idx_inj hcc hcB_lt heq
      exact hdnz ⟨by omega, by omega⟩
    have hneFC : rr * b.cols + cc ≠
        (((rr : Int) + 2 * d.1).toNat) * b.cols + (((cc : Int) + 2 * d.2).toNat) := by
      intro heq
      obtain ⟨h1, h2⟩ := idx_inj hcc hcC_lt heq
      exact hdnz ⟨by omega, by omega⟩
    have hneBC : (((rr : Int) + d.1).toNat) * b.cols + (((cc : Int) + d.2).toNat) ≠
        (((rr : Int) + 2 * d.1).toNat) * b.cols + (((cc : Int) + 2 * d.2).toNat) := by
      intro heq
      obtain ⟨h1, h2⟩ := idx_inj hcB_lt hcC_lt heq
      exact hdnz ⟨by omega, by omega⟩
    have hpieceNe : some piece ≠ some tgt := by
      intro hcon
      rw [Option.some.injEq] at hcon
      apply htpl
      rw [← hcon, hpl]
    constructor
    · rw [hmflags, if_pos rfl]
      unfold diffCount
      rw [hcells]
      rw [filter_diff_eq_of_pointwise _ _ _
        ({rr * b.cols + cc,
          (((rr : Int) + d.1).toNat) * b.cols + (((cc : Int) + d.2).toNat),
          (((rr : Int) + 2 * d.1).toNat) * b.cols + (((cc : Int) + 2 * d.2).toNat)} :
          Finset Nat)]
      · rw [Finset.card_insert_of_not_mem (by simp [hneFB, hneFC]),
          Finset.card_insert_of_not_mem (by simp [hneBC]), Finset.card_singleton]
      · intro j hj
        simp only [Finset.mem_insert, Finset.mem_singleton] at hj
        rcases hj with hj | hj | hj <;> omega
      · intro j hj
        simp only [Finset.mem_insert, Finset.mem_singleton] at hj
        rcases hj with hj | hj | hj <;> subst hj
        · rw [getD_set_ne _ _ _ (Ne.symm hneFB),
            getD_set_self _ _ _ (by simpa using hlenF)]
          rw [holdF]
          simp
        · rw [getD_set_self _ _ _ (by simpa using hlenB)]
          rw [holdB]
          exact fun hcon => hpieceNe hcon.symm
        · rw [getD_set_ne _ _ _ hneBC, getD_set_ne _ _ _ hneFC,
            getD_set_self _ _ _ (by simpa using hlenC)]
          rw [holdC]
          simp
      · intro j _ hjs
        simp only [Finset.mem_insert, Finset.mem_singleton] at hjs
        push_neg at hjs
        rw [getD_set_ne _ _ _ (fun h => hjs.2.1 h.symm),
          getD_set_ne _ _ _ (fun h => hjs.1 h.symm),
          getD_set_ne _ _ _ (fun h => hjs.2.2 h.symm),
          getD_set_ne _ _ _ (fun h => hjs.2.1 h.symm)]
    · unfold ballCount
      rw [hcells]
      have s1 := countP_set_add isBallCell b.cells
        ((((rr : Int) + d.1).toNat) * b.cols + (((cc : Int) + d.2).toNat)) none hlenB
      rw [holdB] at s1
      have s2 := countP_set_add isBallCell
        (b.cells.set ((((rr : Int) + d.1).toNat) * b.cols + (((cc : Int) + d.2).toNat)) none)
        ((((rr : Int) + 2 * d.1).toNat) * b.cols + (((cc : Int) + 2 * d.2).toNat))
        (some tgt) (by simpa using hlenC)
      rw [getD_set_ne _ _ _ hneBC, holdC] at s2
      have s3 := countP_set_add isBallCell
        ((b.cells.set ((((rr : Int) + d.1).toNat) * b.cols + (((cc : Int) + d.2).toNat))
          none).set
          ((((rr : Int) + 2 * d.1).toNat) * b.cols + (((cc : Int) + 2 * d.2).toNat))
          (some tgt))
        (rr * b.cols + cc) none (by simpa using hlenF)
      rw [getD_set_ne _ _ _ (Ne.symm hneFC), getD_set_ne _ _ _ (Ne.symm hneFB),
        holdF] at s3
      have s4 := countP_set_add isBallCell
        (((b.cells.set ((((rr : Int) + d.1).toNat) * b.cols + (((cc : Int) + d.2).toNat))
          none).set
          ((((rr : Int) + 2 * d.1).toNat) * b.cols + (((cc : Int) + 2 * d.2).toNat))
          (some tgt)).set (rr * b.cols + cc) none)
        ((((rr : Int) + d.1).toNat) * b.cols + (((cc : Int) + d.2).toNat)) (some piece)
        (by simpa using hlenB)
      rw [getD_set_ne _ _ _ hneFB, getD_set_ne _ _ _ (Ne.symm hneBC),
        getD_set_self _ _ _ hlenB] at s4
      have htgtNotBall : isBallCell (some tgt) = false := by
        simp [isBallCell, htnb]
      have hpieceNotBall : isBallCell (some piece) = false := by
        simp [isBallCell, hdef]
      unfold ballCount at hone
      simp [htgtNotBall, hpieceNotBall, show isBallCell none = false from rfl] at s1 s2 s3 s4
      omega

/-- The ball-push move (3,3)→(4,3) on `winDemoBoard`, ball to (5,3). -/
def pushDemoMove : MoveInfo :=
  { MoveInfo.simple (3, 3) (4, 3) with push_ball := true, ball_to := some (5, 3) }

/-- The board after `pushDemoMove`. -/
def pushDemoResult : ChessBallBoard :=
  ((winDemoBoard.remove_piece 3 3).place_piece 4 3
    ⟨PieceType.Defender, Player.White⟩).place_piece 5 3
    ⟨PieceType.Ball, Player.Neutral⟩

theorem possible_moves_frame_witness :
    diffCount winDemoBoard pushDemoResult =
      (if pushDemoMove.push_ball || pushDemoMove.tackle then 3 else 2) ∧
    ballCount pushDemoResult = 1 :=
  possible_moves_frame winDemoBoard Player.White (by decide) (by decide)
    pushDemoMove pushDemoResult (by decide)

/-! ### C7: textual representation (`from_repr` / `Display` of `board.rs`)

Text is modelled as `List Char`.  `str::lines()` followed by the `trim` and
non-empty filter of `from_repr` is modelled by splitting at every newline,
trimming each segment and dropping empty segments — the same composite
behaviour (Rust's `lines` drops only a trailing empty segment and a trailing
`'\r'`, both of which the trim-plus-filter also removes). -/

/-- `char::is_whitespace` restricted to the ASCII whitespace this format can
contain. -/
def isWsChar (ch : Char) : Bool := ch = ' ' || ch = '\t' || ch = '\r' || ch = '\n'

def trimLeft : List Char → List Char
  | [] => []
  | ch :: t => if isWsChar ch then trimLeft t else ch :: t

/-- `str::trim`. -/
def trimChars (s : List Char) : List Char := ((trimLeft s).reverse |> trimLeft).reverse

/-- Split at every `'\n'` (a terminal newline yields a final empty segment). -/
def splitOnNl : List Char → List (List Char)
  | [] => [[]]
  | ch :: t =>
    if ch = '\n' then [] :: splitOnNl t
    else
      match splitOnNl t with
      | seg :: rest => (ch :: seg) :: rest
      | [] => [[ch]]

/-- `s.lines().map(trim).filter(non-empty)` of `from_repr`. -/
def linesTrimmed (s : List Char) : List (List Char) :=
  ((splitOnNl s).map trimChars).filter fun l => !l.isEmpty

def splitWsAux : List Char → List Char → List (List Char)
  | [], acc => if acc.isEmpty then [] else [acc.reverse]
  | ch :: t, acc =>
    if isWsChar ch then
      if acc.isEmpty then splitWsAux t [] else acc.reverse :: splitWsAux t []
    else splitWsAux t (ch :: acc)

/-- `str::split_whitespace`. -/
def split_whitespace (s : List Char) : List (List Char) := splitWsAux s []

/-- `Player::from_char` of `board.rs`. -/
def Player.from_char (ch : Char) : Option Player :=
  if ch = 'W' then some Player.White
  else if ch = 'B' then some Player.Black
  else if ch = 'N' then some Player.Neutral
  else none

/-- `Player::to_char` of `board.rs`. -/
def Player.to_char : Player → Char
  | Player.White => 'W'
  | Player.Black => 'B'
  | Player.Neutral => 'N'

/-- `PieceType::from_char` of `board.rs`. -/
def PieceType.from_char (ch : Char) : Option PieceType :=
  if ch = 'A' then some PieceType.Attacker
  else if ch = 'D' then some PieceType.Defender
  else if ch = 'B' then some PieceType.Ball
  else none

/-- `PieceType::to_char` of `board.rs`. -/
def PieceType.to_char : PieceType → Char
  | PieceType.Attacker => 'A'
  | PieceType.Defender => 'D'
  | PieceType.Ball => 'B'

/-- The token printed for one cell (`Display for Piece`, or `--`). -/
def cellChars : Option Piece → List Char
  | some p => [p.player.to_char, p.piece_type.to_char]
  | none => ['-', '-']

/-- `Display for ChessBallBoard`: for every coordinate in row-major order the
cell token, a space unless at the last column, a newline at the last column. -/
def displayChars (b : ChessBallBoard) : List Char :=
  b.iter_coords.flatMap fun coord =>
    cellChars (b.get_piece coord.r.toNat coord.c.toNat) ++
    (if coord.c + 1 < (b.cols : Int) then [' '] else []) ++
    (if coord.c.toNat = b.cols - 1 then ['\n'] else [])

/-- One parsed token: `--` leaves the cell empty, otherwise a two-character
`<Player><PieceType>` token. -/
def parseToken (tok : List Char) : Except String (Option Piece) :=
  if tok = ['-', '-'] then Except.ok none
  else if tok.length ≠ 2 then Except.error "Invalid token"
  else
    match tok with
    | [pch, tch] =>
      match Player.from_char pch with
      | none => Except.error "Unknown player"
      | some player =>
        match PieceType.from_char tch with
        | none => Except.error "Unknown piece"
        | some ptype => Except.ok (some { piece_type := ptype, player := player })
    | _ => Except.error "Invalid token"

/-- The inner token loop of `from_repr` (placement at row `r`, from column `c`). -/
def placeTokens (board : ChessBallBoard) (r : Nat) :
    Nat → List (List Char) → Except String ChessBallBoard
  | _, [] => Except.ok board
  | c, tok :: rest =>
    match parseToken tok with
    | Except.error e => Except.error e
    | Except.ok none => placeTokens board r (c + 1) rest
    | Except.ok (some piece) => placeTokens (board.place_piece r c piece) r (c + 1) rest

/-- The row loop of `from_repr`. -/
def parseLines (board : ChessBallBoard) :
    Nat → List (List Char) → Except String ChessBallBoard
  | _, [] => Except.ok board
  | r, line :: rest =>
    let tokens := split_whitespace line
    if tokens.length ≠ board.cols then Except.error "Unexpected column count"
    else
      match placeTokens board r 0 tokens with
      | Except.error e => Except.error e
      | Except.ok b2 => parseLines b2 (r + 1) rest

/-- `ChessBallBoard::from_repr` of `board.rs`.  On input with no non-empty
lines the Rust code panics indexing `lines[0]`; that is modelled as an error
(no claim exercises it). -/
def from_repr (s : List Char) : Except String ChessBallBoard :=
  let lines := linesTrimmed s
  match lines with
  | [] => Except.error "Empty input"
  | line0 :: _ =>
    let n_rows := lines.length
    let n_cols := (line0.length + 1) / 3
    let board : ChessBallBoard :=
      { rows := n_rows, cols := n_cols,
        cells := List.replicate (n_rows * n_cols) none, prev_tackle := none }
    if lines.length ≠ board.rows then Except.error "Unexpected row count"
    else parseLines board 0 lines

/-- The canonical text of a token grid: one line per row, tokens space-joined,
each line terminated by a newline (this is exactly the shape `Display`
emits). -/
def sepJoin : List (List Char) → List Char
  | [] => []
  | [t] => t
  | t :: rest => t ++ ' ' :: sepJoin rest

def renderGrid (g : List (List (Option Piece))) : List Char :=
  g.flatMap fun row => sepJoin (row.map cellChars) ++ ['\n']

/-- The board a well-formed grid denotes. -/
def boardOf (g : List (List (Option Piece))) : ChessBallBoard :=
  { rows := g.length, cols := (g.headD []).length, cells := g.flatten,
    prev_tackle := none }

/-- The grid of a board. -/
def gridOf (b : ChessBallBoard) : List (List (Option Piece)) :=
  (List.range b.rows).map fun r => (List.range b.cols).map fun c => b.get_piece r c

/-! Lemmas about the textual layer. -/

theorem splitOnNl_append (l rest : List Char) (h : '\n' ∉ l) :
    splitOnNl (l ++ '\n' :: rest) = l :: splitOnNl rest := by
  induction l with
  | nil => simp [splitOnNl]
  | cons ch t ih =>
    have hch : ¬ ch = '\n' := fun hc => h (hc ▸ List.mem_cons_self _ _)
    simp only [List.cons_append, splitOnNl, if_neg hch, List.append_eq]
    rw [ih (fun hm => h (List.mem_cons_of_mem _ hm))]

theorem trimLeft_cons_of_not_ws {ch : Char} {t : List Char} (h : isWsChar ch = false) :
    trimLeft (ch :: t) = ch :: t := by
  simp [trimLeft, h]

theorem trim_eq_self {l : List Char}
    (hh : ∀ ch, l.head? = some ch → isWsChar ch = false)
    (hl : ∀ ch, l.getLast? = some ch → isWsChar ch = false) : trimChars l = l := by
  cases l with
  | nil => rfl
  | cons a t =>
    have ha : isWsChar a = false := hh a rfl
    unfold trimChars
    rw [trimLeft_cons_of_not_ws ha]
    cases hlast : (a :: t).getLast? with
    | none => simp at hlast
    | some z =>
      have hz := hl z hlast
      obtain ⟨rest, hrev⟩ : ∃ rest, (a :: t).reverse = z :: rest := by
        have hhd : (a :: t).reverse.head? = some z := by
          rw [List.head?_reverse]; exact hlast
        cases hr : (a :: t).reverse with
        | nil => rw [hr] at hhd; simp at hhd
        | cons w ws =>
          rw [hr] at hhd
          simp only [List.head?_cons, Option.some.injEq] at hhd
          exact ⟨ws, by rw [hhd]⟩
      rw [hrev, trimLeft_cons_of_not_ws hz, ← hrev, List.reverse_reverse]

theorem splitWsAux_token (t : List Char) (ht : ∀ ch ∈ t, isWsChar ch = false) :
    ∀ (l acc : List Char), splitWsAux (t ++ l) acc = splitWsAux l (t.reverse ++ acc) := by
  induction t with
  | nil => intro l acc; simp
  | cons ch t ih =>
    intro l acc
    have hch : isWsChar ch = false := ht ch (List.mem_cons_self _ _)
    simp only [List.cons_append, splitWsAux, hch, Bool.false_eq_true, if_false,
      List.append_eq]
    rw [ih (fun c hc => ht c (List.mem_cons_of_mem _ hc)) l (ch :: acc)]
    simp

theorem splitWs_sepJoin (toks : List (List Char))
    (h : ∀ t ∈ toks, t ≠ [] ∧ ∀ ch ∈ t, isWsChar ch = false) :
    split_whitespace (sepJoin toks) = toks := by
  unfold split_whitespace
  induction toks with
  | nil => rfl
  | cons t rest ih =>
    obtain ⟨htne, htws⟩ := h t (List.mem_cons_self _ _)
    cases rest with
    | nil =>
      show splitWsAux (sepJoin [t]) [] = [t]
      have : sepJoin [t] = t ++ [] := by simp [sepJoin]
      rw [this, splitWsAux_token t htws [] []]
      simp only [splitWsAux, List.append_nil]
      rw [if_neg (by simp [htne])]
      simp
    | cons t2 r2 =>
      have hsep : sepJoin (t :: t2 :: r2) = t ++ ' ' :: sepJoin (t2 :: r2) := rfl
      rw [hsep, splitWsAux_token t htws _ []]
      simp only [splitWsAux, List.append_nil]
      have hsp : isWsChar ' ' = true := rfl
      rw [if_pos hsp]
      rw [if_neg (by simp [htne])]
      rw [List.reverse_reverse]
      rw [ih (fun x hx => h x (List.mem_cons_of_mem _ hx))]

theorem mem_sepJoin {toks : List (List Char)} {ch : Char} (h : ch ∈ sepJoin toks) :
    (∃ t ∈ toks, ch ∈ t) ∨ ch = ' ' := by
  induction toks with
  | nil => simp [sepJoin] at h
  | cons t rest ih =>
    cases rest with
    | nil =>
      simp only [sepJoin] at h
      exact Or.inl ⟨t, List.mem_cons_self _ _, h⟩
    | cons t2 r2 =>
      rw [show sepJoin (t :: t2 :: r2) = t ++ ' ' :: sepJoin (t2 :: r2) from rfl] at h
      rw [List.mem_append] at h
      rcases h with h | h
      · exact Or.inl ⟨t, List.mem_cons_self _ _, h⟩
      · rcases List.mem_cons.mp h with h | h
        · exact Or.inr h
        · rcases ih h with ⟨t3, ht3, hch⟩ | h
          · exact Or.inl ⟨t3, List.mem_cons_of_mem _ ht3, hch⟩
          · exact Or.inr h

theorem sepJoin_head?_mem {t : List Char} {toks : List (List Char)} {ch : Char}
    (ht : t ≠ []) (h : (sepJoin (t :: toks)).head? = some ch) : ch ∈ t := by
  cases toks with
  | nil =>
    simp only [sepJoin] at h
    exact List.mem_of_mem_head? h
  | cons t2 r2 =>
    rw [show sepJoin (t :: t2 :: r2) = t ++ ' ' :: sepJoin (t2 :: r2) from rfl] at h
    rw [List.head?_append] at h
    cases hh : t.head? with
    | none => exact absurd (List.head?_eq_none_iff.mp hh) ht
    | some w =>
      rw [hh] at h
      rw [Option.or_some] at h
      rw [Option.some.injEq] at h
      exact h ▸ List.mem_of_mem_head? hh

theorem sepJoin_getLast?_mem {toks : List (List Char)} {ch : Char}
    (hne : ∀ t ∈ toks, t ≠ []) (h : (sepJoin toks).getLast? = some ch) :
    ∃ t ∈ toks, ch ∈ t := by
  induction toks with
  | nil => simp [sepJoin] at h
  | cons t rest ih =>
    cases rest with
    | nil =>
      simp only [sepJoin] at h
      exact ⟨t, List.mem_cons_self _ _, List.mem_of_getLast?_eq_some h⟩
    | cons t2 r2 =>
      rw [show sepJoin (t :: t2 :: r2) = t ++ ' ' :: sepJoin (t2 :: r2) from rfl] at h
      rw [List.getLast?_append] at h
      have hne2 : sepJoin (t2 :: r2) ≠ [] := by
        cases hs : sepJoin (t2 :: r2) with
        | nil =>
          exfalso
          cases r2 with
          | nil =>
            apply hne t2 (by simp)
            simpa [sepJoin] using hs
          | cons t3 r3 =>
            rw [show sepJoin (t2 :: t3 :: r3) = t2 ++ ' ' :: sepJoin (t3 :: r3) from rfl] at hs
            simp at hs
        | cons x xs => simp
      have hlast2 : (' ' :: sepJoin (t2 :: r2)).getLast? = (sepJoin (t2 :: r2)).getLast? := by
        cases hs : sepJoin (t2 :: r2) with
        | nil => exact absurd hs hne2
        | cons x xs => simp [List.getLast?_cons_cons]
      rw [hlast2] at h
      cases hg : (sepJoin (t2 :: r2)).getLast? with
      | none =>
        rw [hg] at h
        exact absurd (List.getLast?_eq_none_iff.mp hg) hne2
      | some w =>
        rw [hg] at h
        rw [Option.or_some] at h
        rw [Option.some.injEq] at h
        obtain ⟨t3, ht3, hch⟩ := ih (fun x hx => hne x (List.mem_cons_of_mem _ hx)) (h ▸ hg)
        exact ⟨t3, List.mem_cons_of_mem _ ht3, hch⟩

theorem sepJoin_length {toks : List (List Char)} (h2 : ∀ t ∈ toks, t.length = 2)
    (hne : toks ≠ []) : (sepJoin toks).length = 3 * toks.length - 1 := by
  induction toks with
  | nil => exact absurd rfl hne
  | cons t rest ih =>
    cases rest with
    | nil => simp [sepJoin, h2 t (List.mem_cons_self _ _)]
    | cons t2 r2 =>
      rw [show sepJoin (t :: t2 :: r2) = t ++ ' ' :: sepJoin (t2 :: r2) from rfl]
      have := ih (fun x hx => h2 x (List.mem_cons_of_mem _ hx)) (by simp)
      simp only [List.length_append, List.length_cons, this,
        h2 t (List.mem_cons_self _ _), List.length_cons]
      omega

theorem cellChars_good (cell : Option Piece) :
    (cellChars cell).length = 2 ∧ ∀ ch ∈ cellChars cell, isWsChar ch = false := by
  cases cell with
  | none => decide
  | some p =>
    obtain ⟨pt, pl⟩ := p
    cases pt <;> cases pl <;> decide

theorem sepJoin_ne_nil {t : List Char} {toks : List (List Char)} (ht : t ≠ []) :
    sepJoin (t :: toks) ≠ [] := by
  cases toks with
  | nil => simpa [sepJoin] using ht
  | cons t2 r2 =>
    rw [show sepJoin (t :: t2 :: r2) = t ++ ' ' :: sepJoin (t2 :: r2) from rfl]
    simp

theorem nl_not_mem_sepJoin_cells {row : List (Option Piece)} :
    '\n' ∉ sepJoin (row.map cellChars) := by
  intro hmem
  rcases mem_sepJoin hmem with ⟨t, ht, hch⟩ | h
  · rw [List.mem_map] at ht
    obtain ⟨cell, _, hcell⟩ := ht
    have := (cellChars_good cell).2 '\n' (hcell ▸ hch)
    simp [isWsChar] at this
  · simp at h

theorem splitOnNl_renderGrid (g : List (List (Option Piece))) :
    splitOnNl (renderGrid g) =
      (g.map fun row => sepJoin (row.map cellChars)) ++ [[]] := by
  induction g with
  | nil => rfl
  | cons row g' ih =>
    have : renderGrid (row :: g') =
        sepJoin (row.map cellChars) ++ '\n' :: renderGrid g' := by
      show (sepJoin (row.map cellChars) ++ ['\n']) ++ renderGrid g' = _
      simp
    rw [this, splitOnNl_append _ _ nl_not_mem_sepJoin_cells, ih]
    rfl

theorem trim_sepJoin_cells {row : List (Option Piece)} (hrow : row ≠ []) :
    trimChars (sepJoin (row.map cellChars)) = sepJoin (row.map cellChars) := by
  apply trim_eq_self
  · intro ch hch
    cases row with
    | nil => exact absurd rfl hrow
    | cons cell row' =>
      have hmem : ch ∈ cellChars cell := by
        apply sepJoin_head?_mem _ hch
        have := (cellChars_good cell).1
        intro hnil
        rw [hnil] at this
        simp at this
      exact (cellChars_good cell).2 ch hmem
  · intro ch hch
    have hnn : ∀ t ∈ row.map cellChars, t ≠ [] := by
      intro t ht
      rw [List.mem_map] at ht
      obtain ⟨cell, _, hcell⟩ := ht
      have := (cellChars_good cell).1
      intro hnil
      rw [hcell, hnil] at this
      simp at this
    obtain ⟨t, ht, hmem⟩ := sepJoin_getLast?_mem hnn hch
    rw [List.mem_map] at ht
    obtain ⟨cell, _, hcell⟩ := ht
    exact (cellChars_good cell).2 ch (hcell ▸ hmem)

theorem linesTrimmed_renderGrid (g : List (List (Option Piece)))
    (hne : ∀ row ∈ g, row ≠ []) :
    linesTrimmed (renderGrid g) = g.map fun row => sepJoin (row.map cellChars) := by
  unfold linesTrimmed
  rw [splitOnNl_renderGrid]
  rw [List.map_append, List.filter_append]
  have h1 : (g.map fun row => sepJoin (row.map cellChars)).map trimChars =
      g.map fun row => sepJoin (row.map cellChars) := by
    rw [List.map_map]
    apply List.map_congr_left
    intro row hrow
    exact trim_sepJoin_cells (hne row hrow)
  rw [h1]
  have h2 : List.filter (fun l => !l.isEmpty)
      (g.map fun row => sepJoin (row.map cellChars)) =
      g.map fun row => sepJoin (row.map cellChars) := by
    rw [List.filter_eq_self]
    intro a ha
    rw [List.mem_map] at ha
    obtain ⟨row, hrow, hrfl⟩ := ha
    cases hr : row with
    | nil => exact absurd hr (hne row hrow)
    | cons cell row' =>
      rw [← hrfl, hr]
      have hcne : cellChars cell ≠ [] := by
        have := (cellChars_good cell).1
        intro hnil
        rw [hnil] at this
        simp at this
      have := @sepJoin_ne_nil (cellChars cell) (row'.map cellChars) hcne
      simpa [List.isEmpty_iff] using this
  rw [h2]
  simp [trimChars, trimLeft]

theorem parseToken_cellChars (cell : Option Piece) :
    parseToken (cellChars cell) = Except.ok cell := by
  cases cell with
  | none => rfl
  | some p =>
    obtain ⟨pt, pl⟩ := p
    cases pt <;> cases pl <;> rfl

theorem flatten_length_uniform {g : List (List (Option Piece))} {cols : Nat}
    (h : ∀ row ∈ g, row.length = cols) : g.flatten.length = g.length * cols := by
  induction g with
  | nil => simp
  | cons row g' ih =>
    rw [List.flatten_cons, List.length_append,
      ih (fun x hx => h x (List.mem_cons_of_mem _ hx)), h row (List.mem_cons_self _ _),
      List.length_cons]
    ring

theorem flatten_getD {g : List (List (Option Piece))} {cols : Nat}
    (h : ∀ row ∈ g, row.length = cols) :
    ∀ {i c : Nat}, i < g.length → c < cols →
      g.flatten.getD (i * cols + c) none = (g.getD i []).getD c none := by
  induction g with
  | nil => intro i c hi _; simp at hi
  | cons row g' ih =>
    intro i c hi hc
    rw [List.flatten_cons]
    cases i with
    | zero =>
      rw [List.getD_append _ _ _ _ (by rw [h row (List.mem_cons_self _ _)]; simpa using hc)]
      simp
    | succ i' =>
      have hrl : row.length = cols := h row (List.mem_cons_self _ _)
      rw [show (i' + 1) * cols + c = row.length + (i' * cols + c) by rw [hrl]; ring]
      rw [List.getD_append_right _ _ _ _ (Nat.le_add_right _ _)]
      rw [Nat.add_sub_cancel_left]
      exact ih (fun x hx => h x (List.mem_cons_of_mem _ hx))
        (by simpa using hi) hc

theorem placeTokens_spec (rows cols : Nat) (row : List (Option Piece)) :
    ∀ (bd : ChessBallBoard) (r c0 : Nat),
      bd.rows = rows → bd.cols = cols →
      c0 + row.length ≤ cols → r < rows →
      bd.cells.length = rows * cols →
      (∀ c, c0 ≤ c → c < c0 + row.length → bd.cells.getD (r * cols + c) none = none) →
      ∃ bd', placeTokens bd r c0 (row.map cellChars) = Except.ok bd' ∧
        bd'.rows = rows ∧ bd'.cols = cols ∧ bd'.prev_tackle = bd.prev_tackle ∧
        bd'.cells.length = rows * cols ∧
        (∀ j, (∀ c, c0 ≤ c → c < c0 + row.length → j ≠ r * cols + c) →
          bd'.cells.getD j none = bd.cells.getD j none) ∧
        (∀ c, c0 ≤ c → c < c0 + row.length →
          bd'.cells.getD (r * cols + c) none = row.getD (c - c0) none) := by
  induction row with
  | nil =>
    intro bd r c0 hbr hbc _ _ hlen _
    refine ⟨bd, rfl, hbr, hbc, rfl, hlen, fun j _ => rfl, fun c h1 h2 => ?_⟩
    simp only [List.length_nil, Nat.add_zero] at h2
    exact absurd h2 (by omega)
  | cons cell row' ih =>
    intro bd r c0 hbr hbc hcols hr hlen hnone
    simp only [List.length_cons] at hcols
    have hc0lt : c0 < cols := by omega
    have hnone' : ∀ c, c0 ≤ c → c < c0 + (row'.length + 1) →
        bd.cells.getD (r * cols + c) none = none := by
      intro c h1 h2
      exact hnone c h1 (by simp only [List.length_cons]; omega)
    cases cell with
    | none =>
      have hstep : placeTokens bd r c0 ((none :: row').map cellChars) =
          placeTokens bd r (c0 + 1) (row'.map cellChars) := by
        rw [List.map_cons]
        show placeTokens bd r c0 (cellChars none :: _) = _
        simp [placeTokens, parseToken_cellChars]
      obtain ⟨bd', hrun, h1, h2, h3, h4, hout, hseg⟩ := ih bd r (c0 + 1) hbr hbc
        (by omega) hr hlen
        (fun c hc1 hc2 => hnone' c (by omega) (by omega))
      refine ⟨bd', by rw [hstep]; exact hrun, h1, h2, h3, h4, ?_, ?_⟩
      · intro j hj
        exact hout j (fun c hc1 hc2 =>
          hj c (by omega) (by simp only [List.length_cons]; omega))
      · intro c hc1 hc2
        simp only [List.length_cons] at hc2
        rcases Nat.eq_or_lt_of_le hc1 with hceq | hclt
        · subst hceq
          rw [hout _ (fun c2 hc21 hc22 heq => by
            obtain ⟨_, hcc⟩ := idx_inj hc0lt
              (show c2 < cols by omega) heq
            omega)]
          rw [hnone' c0 (Nat.le_refl _) (by omega)]
          simp
        · rw [hseg c (by omega) (by omega)]
          have hco : c - c0 = (c - (c0 + 1)) + 1 := by omega
          rw [hco, List.getD_cons_succ]
    | some piece =>
      have hidx_lt : r * cols + c0 < bd.cells.length := by
        rw [hlen]
        exact idx_lt_total hr hc0lt
      have hcells2 : (bd.place_piece r c0 piece).cells =
          bd.cells.set (r * cols + c0) (some piece) := by
        rw [cells_place_piece]
        unfold ChessBallBoard.idx
        rw [hbc]
      have hstep : placeTokens bd r c0 ((some piece :: row').map cellChars) =
          placeTokens (bd.place_piece r c0 piece) r (c0 + 1) (row'.map cellChars) := by
        rw [List.map_cons]
        show placeTokens bd r c0 (cellChars (some piece) :: _) = _
        simp [placeTokens, parseToken_cellChars]
      obtain ⟨bd', hrun, h1, h2, h3, h4, hout, hseg⟩ := ih (bd.place_piece r c0 piece)
        r (c0 + 1) (by simpa using hbr) (by simpa using hbc)
        (by omega) hr
        (by rw [hcells2]; simpa using hlen)
        (fun c hc1 hc2 => by
          rw [hcells2, getD_set_ne _ _ _ (fun heq => by
            obtain ⟨_, hcc⟩ := idx_inj hc0lt
              (show c < cols by omega) heq
            omega)]
          exact hnone' c (by omega) (by omega))
      refine ⟨bd', by rw [hstep]; exact hrun, h1, h2,
        by rw [h3]; rfl, h4, ?_, ?_⟩
      · intro j hj
        rw [hout j (fun c hc1 hc2 =>
          hj c (by omega) (by simp only [List.length_cons]; omega))]
        rw [hcells2, getD_set_ne _ _ _ (fun heq =>
          hj c0 (Nat.le_refl _) (by simp only [List.length_cons]; omega) heq.symm)]
      · intro c hc1 hc2
        simp only [List.length_cons] at hc2
        rcases Nat.eq_or_lt_of_le hc1 with hceq | hclt
        · subst hceq
          rw [hout _ (fun c2 hc21 hc22 heq => by
            obtain ⟨_, hcc⟩ := idx_inj hc0lt
              (show c2 < cols by omega) heq
            omega)]
          rw [hcells2, getD_set_self _ _ _ hidx_lt]
          simp
        · rw [hseg c (by omega) (by omega)]
          have hco : c - c0 = (c - (c0 + 1)) + 1 := by omega
          rw [hco, List.getD_cons_succ]

theorem cellTokens_good (row : List (Option Piece)) :
    ∀ t ∈ row.map cellChars, t ≠ [] ∧ ∀ ch ∈ t, isWsChar ch = false := by
  intro t ht
  rw [List.mem_map] at ht
  obtain ⟨cell, _, hc⟩ := ht
  subst hc
  obtain ⟨hl, hw⟩ := cellChars_good cell
  refine ⟨?_, hw⟩
  intro hnil
  rw [hnil] at hl
  simp at hl

theorem parseLines_spec (rows cols : Nat) (g : List (List (Option Piece))) :
    ∀ (bd : ChessBallBoard) (r0 : Nat),
      bd.rows = rows → bd.cols = cols →
      r0 + g.length ≤ rows →
      (∀ row ∈ g, row.length = cols) →
      bd.cells.length = rows * cols →
      (∀ j, r0 * cols ≤ j → bd.cells.getD j none = none) →
      ∃ bd', parseLines bd r0 (g.map fun row => sepJoin (row.map cellChars)) =
          Except.ok bd' ∧
        bd'.rows = rows ∧ bd'.cols = cols ∧ bd'.prev_tackle = bd.prev_tackle ∧
        bd'.cells.length = rows * cols ∧
        (∀ j, j < r0 * cols → bd'.cells.getD j none = bd.cells.getD j none) ∧
        (∀ i c, i < g.length → c < cols →
          bd'.cells.getD ((r0 + i) * cols + c) none = (g.getD i []).getD c none) := by
  induction g with
  | nil =>
    intro bd r0 hbr hbc _ _ hlen _
    exact ⟨bd, rfl, hbr, hbc, rfl, hlen, fun j _ => rfl, fun i c hi _ => by simp at hi⟩
  | cons row g' ih =>
    intro bd r0 hbr hbc hrows huni hlen hnone
    simp only [List.length_cons] at hrows
    have hrowlen : row.length = cols := huni row (List.mem_cons_self _ _)
    have htoks : split_whitespace (sepJoin (row.map cellChars)) = row.map cellChars :=
      splitWs_sepJoin _ (cellTokens_good row)
    obtain ⟨bd2, hrun2, k1, k2, k3, k4, kout, kseg⟩ :=
      placeTokens_spec rows cols row bd r0 0 hbr hbc
        (by omega) (by omega) hlen
        (fun c _ hc2 => hnone (r0 * cols + c) (Nat.le_add_right _ _))
    obtain ⟨bd', hrun, h1, h2, h3, h4, hprior, hrows'⟩ := ih bd2 (r0 + 1) k1 k2
      (by omega) (fun x hx => huni x (List.mem_cons_of_mem _ hx)) k4
      (fun j hj => by
        rw [kout j (fun c _ hc2 => by
          have : r0 * cols + c < (r0 + 1) * cols := by
            have : c < cols := by omega
            calc r0 * cols + c < r0 * cols + cols := by omega
              _ = (r0 + 1) * cols := by ring
          omega)]
        exact hnone j (by
          have : r0 * cols ≤ (r0 + 1) * cols := by
            have : r0 ≤ r0 + 1 := by omega
            exact Nat.mul_le_mul_right _ this
          omega))
    have hunfold : parseLines bd r0
        ((row :: g').map fun row => sepJoin (row.map cellChars)) =
        parseLines bd2 (r0 + 1) (g'.map fun row => sepJoin (row.map cellChars)) := by
      rw [List.map_cons]
      show parseLines bd r0 (sepJoin (row.map cellChars) :: _) = _
      simp only [parseLines, htoks]
      rw [if_neg (by
        rw [List.length_map, hrowlen, hbc]
        simp)]
      rw [hrun2]
    refine ⟨bd', by rw [hunfold]; exact hrun, h1, h2, by rw [h3, k3], h4, ?_, ?_⟩
    · intro j hj
      rw [hprior j (by
        have : r0 * cols ≤ (r0 + 1) * cols :=
          Nat.mul_le_mul_right _ (by omega)
        omega)]
      rw [kout j (fun c _ _ => by omega)]
    · intro i c hi hc
      simp only [List.length_cons] at hi
      cases i with
      | zero =>
        have hjlt : (r0 + 0) * cols + c < (r0 + 1) * cols := by
          calc (r0 + 0) * cols + c < (r0 + 0) * cols + cols := by omega
            _ = (r0 + 1) * cols := by ring
        rw [hprior _ hjlt]
        have := kseg c (Nat.zero_le _) (by omega)
        simp only [Nat.add_zero, Nat.zero_add, Nat.sub_zero] at this ⊢
        rw [this]
        rfl
      | succ i' =>
        have := hrows' i' c (by omega) hc
        rw [show (r0 + (i' + 1)) = ((r0 + 1) + i') by omega]
        rw [this]
        rfl

theorem getD_replicate_none (n j : Nat) :
    (List.replicate n (none : Option Piece)).getD j none = none := by
  rw [List.getD_eq_getElem?_getD, List.getElem?_replicate]
  split <;> rfl

theorem board_ext {a b : ChessBallBoard} (h1 : a.rows = b.rows) (h2 : a.cols = b.cols)
    (h3 : a.cells = b.cells) (h4 : a.prev_tackle = b.prev_tackle) : a = b := by
  cases a
  cases b
  simp_all

theorem list_eq_map_getD (l : List (Option Piece)) :
    (List.range l.length).map (fun i => l.getD i none) = l := by
  apply List.ext_getElem
  · simp
  · intro i h1 h2
    simp only [List.getElem_map, List.getElem_range]
    rw [List.getD_eq_getElem _ _ h2]

/-- Parsing the canonical rendering of a well-formed grid yields its board. -/
theorem from_repr_renderGrid (g : List (List (Option Piece))) (cols : Nat)
    (hg : g ≠ []) (hcols : ∀ row ∈ g, row.length = cols) (hcpos : 0 < cols) :
    from_repr (renderGrid g) = Except.ok (boardOf g) := by
  have hne : ∀ row ∈ g, row ≠ [] := by
    intro row hrow hnil
    have := hcols row hrow
    rw [hnil] at this
    simp at this
    omega
  have hlines := linesTrimmed_renderGrid g hne
  cases g with
  | nil => exact absurd rfl hg
  | cons row0 g' =>
    have hrow0 : row0.length = cols := hcols row0 (List.mem_cons_self _ _)
    have hline0len : (sepJoin (row0.map cellChars)).length = 3 * cols - 1 := by
      rw [sepJoin_length (fun t ht => by
          rw [List.mem_map] at ht
          obtain ⟨cell, _, hc⟩ := ht
          rw [← hc]
          exact (cellChars_good cell).1)
        (by
          intro hnil
          rw [List.map_eq_nil_iff] at hnil
          exact hne row0 (List.mem_cons_self _ _) hnil)]
      rw [List.length_map, hrow0]
    have hncols : ((sepJoin (row0.map cellChars)).length + 1) / 3 = cols := by
      rw [hline0len]
      omega
    unfold from_repr
    rw [hlines]
    simp only [List.map_cons]
    rw [if_neg (by simp)]
    have hinit_rows : ((row0 :: g').length : Nat) = g'.length + 1 := by simp
    obtain ⟨bd', hrun, h1, h2, h3, h4, hprior, hrows'⟩ :=
      parseLines_spec (row0 :: g').length cols (row0 :: g')
        { rows := (sepJoin (row0.map cellChars) ::
              g'.map fun row => sepJoin (row.map cellChars)).length,
          cols := ((sepJoin (row0.map cellChars)).length + 1) / 3,
          cells := List.replicate ((sepJoin (row0.map cellChars) ::
              g'.map fun row => sepJoin (row.map cellChars)).length *
              (((sepJoin (row0.map cellChars)).length + 1) / 3)) none,
          prev_tackle := none }
        0 (by simp) (by simpa using hncols) (by simp) hcols
        (by simp [hncols])
        (fun j _ => getD_replicate_none _ _)
    rw [List.map_cons] at hrun
    rw [hrun]
    congr 1
    apply board_ext
    · rw [h1]; rfl
    · rw [h2]
      show cols = (boardOf (row0 :: g')).cols
      show cols = ((row0 :: g').headD []).length
      simp [hrow0]
    · have hflatlen : (boardOf (row0 :: g')).cells.length = (row0 :: g').length * cols := by
        show (row0 :: g').flatten.length = _
        exact flatten_length_uniform hcols
      apply List.ext_getElem
      · rw [h4, hflatlen]
      · intro j hj1 hj2
        rw [← List.getD_eq_getElem _ none hj1, ← List.getD_eq_getElem _ none hj2]
        have hjlt : j < (row0 :: g').length * cols := by
          rw [h4] at hj1
          exact hj1
        have hdiv : j / cols < (row0 :: g').length := by
          apply (Nat.div_lt_iff_lt_mul hcpos).mpr
          exact hjlt
        have hmod : j % cols < cols := Nat.mod_lt _ hcpos
        have hdecomp : j = (0 + j / cols) * cols + j % cols := by
          simp only [Nat.zero_add]
          rw [Nat.mul_comm]
          exact (Nat.div_add_mod j cols).symm
        rw [hdecomp]
        rw [hrows' (j / cols) (j % cols) hdiv hmod]
        show _ = (boardOf (row0 :: g')).cells.getD ((0 + j / cols) * cols + j % cols) none
        show _ = (row0 :: g').flatten.getD ((0 + j / cols) * cols + j % cols) none
        simp only [Nat.zero_add]
        rw [flatten_getD hcols hdiv hmod]
    · rw [h3]
      rfl

theorem list_eq_map_getD_row (g : List (List (Option Piece))) :
    (List.range g.length).map (fun i => g.getD i []) = g := by
  apply List.ext_getElem
  · simp
  · intro i h1 h2
    simp only [List.getElem_map, List.getElem_range]
    rw [List.getD_eq_getElem _ _ h2]

theorem render_block (n : Nat) (hn : 0 < n) :
    ∀ (t : Nat → List Char),
    ((List.range n).flatMap fun c =>
      t c ++ (if c + 1 < n then [' '] else []) ++ (if c = n - 1 then ['\n'] else [])) =
    sepJoin ((List.range n).map t) ++ ['\n'] := by
  induction n with
  | zero => omega
  | succ k ih =>
    intro t
    rcases Nat.eq_zero_or_pos k with h0 | hk
    · subst h0
      rw [show List.range 1 = [0] from rfl]
      simp [sepJoin]
    · rw [List.range_succ_eq_map, List.flatMap_cons]
      have hhead : t 0 ++ (if 0 + 1 < k + 1 then [' '] else []) ++
          (if 0 = k + 1 - 1 then ['\n'] else []) = t 0 ++ [' '] := by
        rw [if_pos (by omega), if_neg (by omega)]
        simp
      rw [hhead]
      have htail : (List.map Nat.succ (List.range k)).flatMap
          (fun c => t c ++ (if c + 1 < k + 1 then [' '] else []) ++
            (if c = k + 1 - 1 then ['\n'] else [])) =
          (List.range k).flatMap fun c => (t ∘ Nat.succ) c ++
            (if c + 1 < k then [' '] else []) ++ (if c = k - 1 then ['\n'] else []) := by
        rw [List.flatMap_map]
        rw [List.flatMap_def, List.flatMap_def]
        congr 1
        apply List.map_congr_left
        intro c hc
        rw [List.mem_range] at hc
        exact congrArg₂ (· ++ ·)
          (congrArg₂ (· ++ ·) rfl (if_congr (by omega) rfl rfl))
          (if_congr (by omega) rfl rfl)
      rw [htail, ih hk (t ∘ Nat.succ)]
      rw [List.map_cons, List.map_map]
      have hrne : (List.range k).map (t ∘ Nat.succ) ≠ [] := by
        simp [List.range_eq_nil]
        omega
      cases hr : (List.range k).map (t ∘ Nat.succ) with
      | nil => exact absurd hr hrne
      | cons x xs =>
        show t 0 ++ [' '] ++ (sepJoin (x :: xs) ++ ['\n']) =
          sepJoin (t 0 :: x :: xs) ++ ['\n']
        rw [show sepJoin (t 0 :: x :: xs) = t 0 ++ ' ' :: sepJoin (x :: xs) from rfl]
        simp

theorem displayChars_eq_rows (b : ChessBallBoard) (hc : 0 < b.cols) :
    displayChars b = (List.range b.rows).flatMap fun r =>
      sepJoin ((List.range b.cols).map fun c => cellChars (b.get_piece r c)) ++ ['\n'] := by
  unfold displayChars ChessBallBoard.iter_coords
  rw [List.flatMap_map]
  have main : ∀ k, (List.range (b.cols * k)).flatMap (fun i =>
      cellChars (b.get_piece ((⟨((i / b.cols : Nat) : Int), ((i % b.cols : Nat) : Int)⟩ :
          Coord).r.toNat) ((⟨((i / b.cols : Nat) : Int), ((i % b.cols : Nat) : Int)⟩ :
          Coord).c.toNat)) ++
        (if (⟨((i / b.cols : Nat) : Int), ((i % b.cols : Nat) : Int)⟩ : Coord).c + 1 <
            (b.cols : Int) then [' '] else []) ++
        (if (⟨((i / b.cols : Nat) : Int), ((i % b.cols : Nat) : Int)⟩ : Coord).c.toNat =
            b.cols - 1 then ['\n'] else [])) =
      (List.range k).flatMap fun r =>
        sepJoin ((List.range b.cols).map fun c => cellChars (b.get_piece r c)) ++ ['\n'] := by
    intro k
    induction k with
    | zero => simp
    | succ k ih =>
      rw [Nat.mul_succ, List.range_add, List.flatMap_append, ih, List.range_succ,
        List.flatMap_append, List.flatMap_map]
      congr 1
      rw [List.flatMap_cons, List.flatMap_nil, List.append_nil]
      rw [← render_block b.cols hc (fun c => cellChars (b.get_piece k c))]
      rw [List.flatMap_def, List.flatMap_def]
      congr 1
      apply List.map_congr_left
      intro c hcc
      rw [List.mem_range] at hcc
      have hdivq : (b.cols * k + c) / b.cols = k := by
        rw [Nat.mul_add_div hc, Nat.div_eq_of_lt hcc, Nat.add_zero]
      have hmodq : (b.cols * k + c) % b.cols = c := by
        rw [Nat.mul_add_mod, Nat.mod_eq_of_lt hcc]
      simp only [hdivq, hmodq, Int.toNat_natCast]
      exact congrArg₂ (· ++ ·)
        (congrArg₂ (· ++ ·) rfl (if_congr (by omega) rfl rfl)) rfl
  have hcr : b.cols * b.rows = b.cols * b.rows := rfl
  exact main b.rows

/-- Printing the board a well-formed grid denotes reproduces that grid's
canonical text. -/
theorem displayChars_boardOf (g : List (List (Option Piece))) (cols : Nat)
    (hg : g ≠ []) (hcols : ∀ row ∈ g, row.length = cols) (hcpos : 0 < cols) :
    displayChars (boardOf g) = renderGrid g := by
  have hbcols : (boardOf g).cols = cols := by
    cases g with
    | nil => exact absurd rfl hg
    | cons row0 g' =>
      show (List.headD (row0 :: g') []).length = cols
      simpa using hcols row0 (List.mem_cons_self _ _)
  rw [displayChars_eq_rows (boardOf g) (by rw [hbcols]; exact hcpos)]
  unfold renderGrid
  have hgrows : (boardOf g).rows = g.length := rfl
  rw [hgrows, hbcols]
  conv_rhs => rw [show g = (List.range g.length).map (fun i => g.getD i []) from
    (list_eq_map_getD_row g).symm]
  rw [List.flatMap_map]
  rw [List.flatMap_def, List.flatMap_def]
  congr 1
  apply List.map_congr_left
  intro r hr
  rw [List.mem_range] at hr
  congr 1
  have hrowlen : (g.getD r []).length = cols := by
    apply hcols
    rw [List.getD_eq_getElem _ _ (by simpa using hr)]
    exact List.getElem_mem _
  have hcell : ∀ c < cols, (boardOf g).get_piece r c = (g.getD r []).getD c none := by
    intro c hcc
    show g.flatten.getD ((boardOf g).idx r c) none = _
    have hidx : (boardOf g).idx r c = r * cols + c := by
      unfold ChessBallBoard.idx
      rw [hbcols]
    rw [hidx]
    exact flatten_getD hcols hr hcc
  have : (List.range cols).map (fun c => cellChars ((boardOf g).get_piece r c)) =
      (List.range cols).map (fun c => cellChars ((g.getD r []).getD c none)) := by
    apply List.map_congr_left
    intro c hcc
    rw [List.mem_range] at hcc
    rw [hcell c hcc]
  rw [this]
  rw [show (List.range cols).map (fun c => cellChars ((g.getD r []).getD c none)) =
      ((List.range cols).map fun c => (g.getD r []).getD c none).map cellChars from by
    rw [List.map_map]; rfl]
  congr 1
  rw [← hrowlen]
  exact congrArg (List.map cellChars) (list_eq_map_getD (g.getD r []))

theorem gridOf_cols (b : ChessBallBoard) :
    ∀ row ∈ gridOf b, row.length = b.cols := by
  intro row hrow
  simp only [gridOf, List.mem_map] at hrow
  obtain ⟨r, hrr, hr⟩ := hrow
  rw [← hr]
  simp

theorem gridOf_ne_nil (b : ChessBallBoard) (h : 0 < b.rows) : gridOf b ≠ [] := by
  intro hnil
  have hl : (gridOf b).length = b.rows := by simp [gridOf]
  rw [hnil] at hl
  simp at hl
  omega

/-- A board with well-formed storage and no tackle memory is recovered from its
grid. -/
theorem boardOf_gridOf (b : ChessBallBoard)
    (hlen : b.cells.length = b.rows * b.cols)
    (hr : 0 < b.rows) (hc : 0 < b.cols) (hpt : b.prev_tackle = none) :
    boardOf (gridOf b) = b := by
  apply board_ext
  · show (gridOf b).length = b.rows
    simp [gridOf]
  · show ((gridOf b).headD []).length = b.cols
    obtain ⟨n, hn⟩ : ∃ n, b.rows = n + 1 := ⟨b.rows - 1, by omega⟩
    simp [gridOf, hn, List.range_succ_eq_map]
  · show (gridOf b).flatten = b.cells
    have hglen : (gridOf b).length = b.rows := by simp [gridOf]
    have hflen : (gridOf b).flatten.length = b.rows * b.cols := by
      rw [flatten_length_uniform (gridOf_cols b), hglen]
    apply List.ext_getElem
    · rw [hflen, hlen]
    · intro i h1 h2
      have hi : i < b.rows * b.cols := by rw [← hflen]; exact h1
      have hic : i % b.cols < b.cols := Nat.mod_lt _ hc
      have hrow : i / b.cols < b.rows := by
        rw [Nat.div_lt_iff_lt_mul hc]
        exact hi
      have hgd : (gridOf b).flatten.getD i none = b.cells.getD i none := by
        conv_lhs => rw [show i = i / b.cols * b.cols + i % b.cols from by
          rw [Nat.mul_comm]
          exact (Nat.div_add_mod i b.cols).symm]
        rw [flatten_getD (gridOf_cols b) (by rw [hglen]; exact hrow) hic]
        have hrowD : (gridOf b).getD (i / b.cols) [] =
            (List.range b.cols).map fun c => b.get_piece (i / b.cols) c := by
          rw [List.getD_eq_getElem _ _ (by rw [hglen]; exact hrow)]
          simp [gridOf]
        rw [hrowD]
        rw [List.getD_eq_getElem _ _ (by simpa using hic)]
        simp only [List.getElem_map, List.getElem_range]
        show b.cells.getD (i / b.cols * b.cols + i % b.cols) none = b.cells.getD i none
        rw [show i / b.cols * b.cols + i % b.cols = i from by
          rw [Nat.mul_comm]; exact Nat.div_add_mod i b.cols]
      calc (gridOf b).flatten[i] = (gridOf b).flatten.getD i none :=
            (List.getD_eq_getElem _ _ h1).symm
        _ = b.cells.getD i none := hgd
        _ = b.cells[i] := List.getD_eq_getElem _ _ h2
  · show (none : Option DefenderTackle) = b.prev_tackle
    exact hpt.symm

/-- Board whose `prev_tackle` memory is set: the round trip through text drops
it, refuting the unrestricted round-trip claim. -/
def prevTackleBoard : ChessBallBoard :=
  { rows := 2, cols := 2, cells := List.replicate 4 none,
    prev_tackle := some ⟨⟨0, 0⟩, ⟨0, 1⟩⟩ }

/-- C7 (counterexample): parsing the rendering of `prevTackleBoard` does not
return `prevTackleBoard` itself — `from_repr` always constructs a board with
`prev_tackle = none`, so `parse (print b) = b` fails for any board whose
tackle memory is set. -/
theorem display_roundtrip_counterexample :
    (from_repr (displayChars prevTackleBoard)).toOption ≠ some prevTackleBoard := by
  decide

/-- C7 (amended): the textual round trip holds up to the tackle memory and up
to canonical spacing. (1) For every board with well-formed storage
(`cells.length = rows * cols`, positive dimensions) and `prev_tackle = none`,
parsing its rendering succeeds and returns the board itself. (2) For every
non-empty grid of uniform positive width, parsing its canonical rendering
returns the denoted board, and rendering that board reproduces the text
exactly. -/
theorem display_from_repr_roundtrip :
    (∀ b : ChessBallBoard, b.cells.length = b.rows * b.cols → 0 < b.rows →
        0 < b.cols → b.prev_tackle = none →
        from_repr (displayChars b) = Except.ok b) ∧
    (∀ (g : List (List (Option Piece))) (cols : Nat), g ≠ [] →
        (∀ row ∈ g, row.length = cols) → 0 < cols →
        from_repr (renderGrid g) = Except.ok (boardOf g) ∧
        displayChars (boardOf g) = renderGrid g) := by
  constructor
  · intro b hlen hr hc hpt
    have hb := boardOf_gridOf b hlen hr hc hpt
    have h1 := from_repr_renderGrid (gridOf b) b.cols (gridOf_ne_nil b hr)
      (gridOf_cols b) hc
    have h2 := displayChars_boardOf (gridOf b) b.cols (gridOf_ne_nil b hr)
      (gridOf_cols b) hc
    rw [hb] at h1 h2
    rw [h2]
    exact h1
  · intro g cols hg hcols hc
    exact ⟨from_repr_renderGrid g cols hg hcols hc,
      displayChars_boardOf g cols hg hcols hc⟩

/-- 2×3 demo board for the round trip: neutral ball at (0,1), White attacker
at (1,2). -/
def roundtripDemoBoard : ChessBallBoard :=
  mkBoard 2 3 [(0, 1, ⟨PieceType.Ball, Player.Neutral⟩),
               (1, 2, ⟨PieceType.Attacker, Player.White⟩)]

theorem display_from_repr_roundtrip_witness :
    from_repr (displayChars roundtripDemoBoard) = Except.ok roundtripDemoBoard ∧
    (from_repr (renderGrid (gridOf roundtripDemoBoard)) =
        Except.ok (boardOf (gridOf roundtripDemoBoard)) ∧
      displayChars (boardOf (gridOf roundtripDemoBoard)) =
        renderGrid (gridOf roundtripDemoBoard)) :=
  ⟨display_from_repr_roundtrip.1 roundtripDemoBoard (by decide) (by decide)
      (by decide) (by decide),
    display_from_repr_roundtrip.2 (gridOf roundtripDemoBoard) 3
      (by decide) (by decide) (by decide)⟩

end Chessball
